import Mathlib

/-!
Verification of the CHORUS continuity core: the ledger line codec, the desire
parser, the response resolver, the evolution control loop and the daemon loop.

The Python source is shallowly embedded over `List Char`:

* Python strings become `List Char`; `str.strip` and friends are modelled over
  the ASCII whitespace characters (the payloads this system handles are ASCII).
* `str.replace` with a one-character pattern is character-wise (`rep1`);
  with a two-character pattern it is the left-to-right non-overlapping
  scan (`rep2`).
* Raising an exception becomes returning `none` / `Except.error`; functions
  that mutate files thread an explicit file-system record `Fs`.
* `json.loads` is embedded as a strict recursive-descent parser (`jsonParseFull`)
  that, like the Python decoder, rejects literal control characters inside
  string literals; numbers are kept as their lexemes (exact for the integers
  this system produces).
* Wall-clock timestamps are passed in as an explicit `now` argument.
-/

/-- ASCII whitespace used by Python `str.strip` / `\s`. -/
def isWS (c : Char) : Bool :=
  c = ' ' ∨ c = '\t' ∨ c = '\n' ∨ c = '\r' ∨ c = '\x0b' ∨ c = '\x0c'

/-- Python `str.lstrip()`. -/
def pyLStrip (l : List Char) : List Char := l.dropWhile isWS

/-- Python `str.rstrip()`. -/
def pyRStrip (l : List Char) : List Char := (l.reverse.dropWhile isWS).reverse

/-- Python `str.strip()`. -/
def pyStrip (l : List Char) : List Char := pyRStrip (pyLStrip l)

/-- Split a list at every occurrence of the separator character; always returns
one more part than there are separators. -/
def splitOnChar (sep : Char) : List Char → List (List Char)
  | [] => [[]]
  | c :: rest =>
    let parts := splitOnChar sep rest
    if c = sep then [] :: parts
    else match parts with
      | [] => [[c]]
      | p :: ps => (c :: p) :: ps

/-- Python `str.splitlines()` restricted to `\n` separators (the only line
separator appearing in this system's data). -/
def pySplitlines (s : List Char) : List (List Char) :=
  if s = [] then []
  else if s.getLast? = some '\n' then (splitOnChar '\n' s).dropLast
  else splitOnChar '\n' s

/-- Decimal rendering of a natural number (Python `str(n)` for `n ≥ 0`). -/
def natToChars (n : Nat) : List Char := Nat.toDigits 10 n

/-- Decimal value of a digit string (Python `int(s)` on a digit-only string). -/
def digitsToNat (l : List Char) : Nat :=
  l.foldl (fun a c => 10 * a + (c.toNat - '0'.toNat)) 0

/-- Python `lines[-n:]`. -/
def lastN (n : Nat) (l : List (List Char)) : List (List Char) :=
  l.drop (l.length - n)

/-- Python `str.replace(p, r)` for a single-character pattern `p`
(character-wise substitution). -/
def rep1 (p : Char) (r : List Char) : List Char → List Char
  | [] => []
  | c :: rest => (if c = p then r else [c]) ++ rep1 p r rest

/-- Python `str.replace(p₁p₂, out)` for a two-character pattern: the
left-to-right, non-overlapping scan. -/
def rep2 (p₁ p₂ out : Char) : List Char → List Char
  | [] => []
  | [c] => [c]
  | c₁ :: c₂ :: rest =>
    if c₁ = p₁ ∧ c₂ = p₂ then out :: rep2 p₁ p₂ out rest
    else c₁ :: rep2 p₁ p₂ out (c₂ :: rest)

/-- `ledger._escape`: `value.replace("\\", "\\\\").replace("\"", "\\\"")`. -/
def ledgerEscape (s : List Char) : List Char :=
  rep1 '"' ['\\', '"'] (rep1 '\\' ['\\', '\\'] s)

/-- `ledger._unescape`: `value.replace("\\\"", "\"").replace("\\\\", "\\")`. -/
def ledgerUnescape (s : List Char) : List Char :=
  rep2 '\\' '\\' '\\' (rep2 '\\' '"' '"' s)

section EscapeLemmas

/-- The escaped form of a string never starts with a bare quote. -/
theorem ledgerEscape_ne_quote_cons (s : List Char) (t : List Char) :
    ledgerEscape s ≠ '"' :: t := by
  cases s with
  | nil => simp [ledgerEscape, rep1]
  | cons c rest =>
    by_cases hb : c = '\\'
    · subst hb
      simp [ledgerEscape, rep1]
    · by_cases hq : c = '"'
      · subst hq
        simp [ledgerEscape, rep1]
      · simp [ledgerEscape, rep1, hb, hq]

/-- Helper: the quote-unescape scan steps over a leading backslash whenever
the rest does not begin with a quote. -/
theorem rep2_quote_cons_backslash (x : List Char)
    (h : ∀ t, x ≠ '"' :: t) :
    rep2 '\\' '"' '"' ('\\' :: x) = '\\' :: rep2 '\\' '"' '"' x := by
  cases x with
  | nil => simp [rep2]
  | cons y ys =>
    have hy : y ≠ '"' := by
      intro hcontra
      exact h ys (by rw [hcontra])
    simp [rep2, hy]

/-- Doubling of backslashes, the effect of the first escaping pass alone. -/
def backslashDouble (s : List Char) : List Char := rep1 '\\' ['\\', '\\'] s

/-- Undoing the quote escapes of an escaped string leaves exactly the
backslash-doubled original. -/
theorem rep2_quote_ledgerEscape (s : List Char) :
    rep2 '\\' '"' '"' (ledgerEscape s) = backslashDouble s := by
  induction s with
  | nil => simp [ledgerEscape, backslashDouble, rep1, rep2]
  | cons c rest ih =>
    by_cases hb : c = '\\'
    · subst hb
      have hstep := rep2_quote_cons_backslash (ledgerEscape rest)
        (ledgerEscape_ne_quote_cons rest)
      have hexp : ledgerEscape ('\\' :: rest) = '\\' :: '\\' :: ledgerEscape rest := by
        simp [ledgerEscape, rep1]
      rw [hexp]
      have h1 : rep2 '\\' '"' '"' ('\\' :: '\\' :: ledgerEscape rest)
          = '\\' :: rep2 '\\' '"' '"' ('\\' :: ledgerEscape rest) := by
        simp [rep2]
      rw [h1, hstep, ih]
      simp [backslashDouble, rep1]
    · by_cases hq : c = '"'
      · subst hq
        have hexp : ledgerEscape ('"' :: rest) = '\\' :: '"' :: ledgerEscape rest := by
          simp [ledgerEscape, rep1]
        rw [hexp]
        have h1 : rep2 '\\' '"' '"' ('\\' :: '"' :: ledgerEscape rest)
            = '"' :: rep2 '\\' '"' '"' (ledgerEscape rest) := by
          simp [rep2]
        rw [h1, ih]
        simp [backslashDouble, rep1]
      · have hexp : ledgerEscape (c :: rest) = c :: ledgerEscape rest := by
          simp [ledgerEscape, rep1, hb, hq]
        rw [hexp]
        have h1 : rep2 '\\' '"' '"' (c :: ledgerEscape rest)
            = c :: rep2 '\\' '"' '"' (ledgerEscape rest) := by
          cases hx : ledgerEscape rest with
          | nil => simp [rep2]
          | cons y ys => simp [rep2, hb]
        rw [h1, ih]
        simp [backslashDouble, rep1, hb]

/-- Collapsing doubled backslashes undoes the backslash-doubling pass. -/
theorem rep2_backslash_backslashDouble (s : List Char) :
    rep2 '\\' '\\' '\\' (backslashDouble s) = s := by
  induction s with
  | nil => simp [backslashDouble, rep1, rep2]
  | cons c rest ih =>
    by_cases hb : c = '\\'
    · subst hb
      have hexp : backslashDouble ('\\' :: rest) = '\\' :: '\\' :: backslashDouble rest := by
        simp [backslashDouble, rep1]
      rw [hexp]
      have h1 : rep2 '\\' '\\' '\\' ('\\' :: '\\' :: backslashDouble rest)
          = '\\' :: rep2 '\\' '\\' '\\' (backslashDouble rest) := by
        simp [rep2]
      rw [h1, ih]
    · have hexp : backslashDouble (c :: rest) = c :: backslashDouble rest := by
        simp [backslashDouble, rep1, hb]
      rw [hexp]
      have h1 : rep2 '\\' '\\' '\\' (c :: backslashDouble rest)
          = c :: rep2 '\\' '\\' '\\' (backslashDouble rest) := by
        cases hx : backslashDouble rest with
        | nil => simp [rep2]
        | cons y ys => simp [rep2, hb]
      rw [h1, ih]

/-- Escaping then unescaping a ledger field value is the identity. -/
theorem ledgerUnescape_ledgerEscape (s : List Char) :
    ledgerUnescape (ledgerEscape s) = s := by
  unfold ledgerUnescape
  rw [rep2_quote_ledgerEscape, rep2_backslash_backslashDouble]

end EscapeLemmas

/-! ### Ledger data model (`src/chorus/ledger.py`) -/

/-- `ALLOWED_ENTRY_TYPES` from `ledger.py`. -/
def ALLOWED_ENTRY_TYPES : List (List Char) :=
  ["FACT".toList, "PREF".toList, "PROJECT".toList, "DECISION".toList,
   "WARNING".toList, "TODO".toList, "PATCH".toList, "ASSUMPTION".toList]

/-- `LedgerEntry` dataclass. -/
structure LedgerEntry where
  ts : List Char
  type : List Char
  topic : List Char
  content : List Char
  source : List Char
deriving DecidableEq, Repr

/-- `LedgerEntry.validate`, returning the `ValueError` message of the first
failing check instead of raising. -/
def validateMsg (e : LedgerEntry) : Option (List Char) :=
  if ¬ ALLOWED_ENTRY_TYPES.contains e.type then
    some ("Unsupported ledger entry type: ".toList ++ e.type)
  else if e.ts = [] then some "Ledger entry ts must be non-empty".toList
  else if e.topic = [] then some "Ledger entry topic must be non-empty".toList
  else if e.content = [] then some "Ledger entry content must be non-empty".toList
  else if e.source = [] then some "Ledger entry source must be non-empty".toList
  else none

/-- `LedgerEntry.validate` as a predicate: the entry raises no `ValueError`. -/
def LedgerEntry.validate (e : LedgerEntry) : Bool := (validateMsg e).isNone

/-- One `key:"escaped value"` group of the ledger line. -/
def quotedField (kname : List Char) (v : List Char) : List Char :=
  kname ++ (':' :: ('"' :: (ledgerEscape v ++ ['"'])))

/-- The text between `- \x7b` and `\x7d` of a ledger line: the five quoted
fields joined by commas (a space sits in front of every key but the first). -/
def ledgerPayload (e : LedgerEntry) : List Char :=
  quotedField "ts".toList e.ts
    ++ (',' :: (quotedField " type".toList e.type
    ++ (',' :: (quotedField " topic".toList e.topic
    ++ (',' :: (quotedField " content".toList e.content
    ++ (',' :: quotedField " source".toList e.source)))))))

/-- `LedgerEntry.to_ledger_line` (the formatting part; the preceding
`self.validate()` call is carried as a hypothesis by the theorems).
Character for character this is the f-string
`- \x7bts:"E1", type:"E2", topic:"E3", content:"E4", source:"E5"\x7d`
with `Ei` the escaped field values. -/
def toLedgerLine (e : LedgerEntry) : List Char :=
  "- \x7b".toList ++ (ledgerPayload e ++ ['\x7d'])

/-- `ledger._split_quoted_fields` scanner loop: explicit state
(`fields`, `current`, `in_quotes`, `escape`); `none` models the
"Unterminated quoted value" `ValueError`. -/
def splitQF : List Char → List (List Char) → List Char → Bool → Bool →
    Option (List (List Char))
  | [], fields, current, inQuotes, _ =>
    if inQuotes then none
    else if current.isEmpty then some fields
    else some (fields ++ [pyStrip current])
  | c :: rest, fields, current, inQuotes, esc =>
    if esc then splitQF rest fields (current ++ [c]) inQuotes false
    else if c = '\\' then splitQF rest fields (current ++ [c]) inQuotes true
    else if c = '"' then splitQF rest fields (current ++ [c]) (!inQuotes) false
    else if c = ',' ∧ inQuotes = false then
      splitQF rest (fields ++ [pyStrip current]) [] false false
    else splitQF rest fields (current ++ [c]) inQuotes false

/-- `ledger._split_quoted_fields`. -/
def splitQuotedFields (payload : List Char) : Option (List (List Char)) :=
  splitQF payload [] [] false false

/-- Python `part.split(":", 1)`; `none` models the unpacking `ValueError`
when no colon is present. -/
def splitFirstColon : List Char → Option (List Char × List Char)
  | [] => none
  | c :: rest =>
    if c = ':' then some ([], rest)
    else match splitFirstColon rest with
      | none => none
      | some (a, b) => some (c :: a, b)

/-- One field of `parse_ledger_line`'s loop body: split at the first colon,
strip both sides, demand surrounding quotes, unescape the interior. -/
def parsePart (part : List Char) : Option (List Char × List Char) :=
  match splitFirstColon part with
  | none => none
  | some (k, raw) =>
    let key := pyStrip k
    let rawV := pyStrip raw
    if rawV.head? = some '"' ∧ rawV.getLast? = some '"' then
      some (key, ledgerUnescape (rawV.drop 1).dropLast)
    else none

/-- Process every field of the payload. -/
def collectFields : List (List Char) → Option (List (List Char × List Char))
  | [] => some []
  | p :: rest =>
    match parsePart p, collectFields rest with
    | some kv, some t => some (kv :: t)
    | _, _ => none

/-- Lookup in an association list with Python-`dict` semantics (a later
binding for the same key wins). -/
def alistGet {α : Type} (k : List Char) : List (List Char × α) → Option α
  | [] => none
  | kv :: rest =>
    match alistGet k rest with
    | some v => some v
    | none => if kv.1 = k then some kv.2 else none

/-- `ledger.parse_ledger_line`; `none` models every raised error
(format `ValueError`, `KeyError`, validation `ValueError`). -/
def parseLedgerLine (line : List Char) : Option LedgerEntry :=
  let trimmed := pyStrip line
  if "- \x7b".toList.isPrefixOf trimmed ∧ trimmed.getLast? = some '\x7d' then
    let payload := (trimmed.drop 3).dropLast
    match splitQuotedFields payload with
    | none => none
    | some parts =>
      match collectFields parts with
      | none => none
      | some kvs =>
        match alistGet "ts".toList kvs, alistGet "type".toList kvs,
            alistGet "topic".toList kvs, alistGet "content".toList kvs,
            alistGet "source".toList kvs with
        | some a, some b, some c, some d, some e =>
          let entry : LedgerEntry := ⟨a, b, c, d, e⟩
          if entry.validate then some entry else none
        | _, _, _, _, _ => none
  else none

/-! ### Strip and list helpers used by the round-trip proof -/

theorem pyLStrip_cons_not_ws (c : Char) (l : List Char) (h : isWS c = false) :
    pyLStrip (c :: l) = c :: l := by
  simp [pyLStrip, List.dropWhile_cons, h]

theorem pyRStrip_append_singleton (l : List Char) (c : Char) (h : isWS c = false) :
    pyRStrip (l ++ [c]) = l ++ [c] := by
  unfold pyRStrip
  rw [List.reverse_append]
  simp [List.dropWhile_cons, h]

theorem pyStrip_sandwich (c d : Char) (mid : List Char)
    (hc : isWS c = false) (hd : isWS d = false) :
    pyStrip (c :: (mid ++ [d])) = c :: (mid ++ [d]) := by
  unfold pyStrip
  rw [pyLStrip_cons_not_ws c _ hc]
  have hform : c :: (mid ++ [d]) = (c :: mid) ++ [d] := by simp
  rw [hform, pyRStrip_append_singleton _ _ hd]

theorem pyStrip_space_cons (l : List Char) : pyStrip (' ' :: l) = pyStrip l := by
  unfold pyStrip pyLStrip
  rw [List.dropWhile_cons]
  simp [show isWS ' ' = true from rfl]

theorem getLast?_append_singleton (l : List Char) (a : Char) :
    (l ++ [a]).getLast? = some a := by
  induction l with
  | nil => rfl
  | cons c cs ih =>
    rw [List.cons_append]
    cases hcs : cs ++ [a] with
    | nil => simp at hcs
    | cons y ys =>
      rw [List.getLast?_cons_cons]
      rw [hcs] at ih
      exact ih

theorem dropLast_append_singleton (l : List Char) (a : Char) :
    (l ++ [a]).dropLast = l := by
  simp

/-! ### Scanner lemmas for `_split_quoted_fields` -/

/-- Scanning a run of ordinary characters (no backslash, quote or comma)
just copies them into the current field. -/
theorem splitQF_lit (lit : List Char)
    (hl : ∀ c ∈ lit, c ≠ '\\' ∧ c ≠ '"' ∧ c ≠ ',') :
    ∀ rest fields current q,
      splitQF (lit ++ rest) fields current q false
        = splitQF rest fields (current ++ lit) q false := by
  induction lit with
  | nil => intro rest fields current q; simp
  | cons c cs ih =>
    intro rest fields current q
    obtain ⟨h1, h2, h3⟩ := hl c (by simp)
    have hcs : ∀ c' ∈ cs, c' ≠ '\\' ∧ c' ≠ '"' ∧ c' ≠ ',' := by
      intro c' hc'
      exact hl c' (by simp [hc'])
    rw [List.cons_append]
    show splitQF (c :: (cs ++ rest)) fields current q false = _
    rw [splitQF]
    rw [if_neg (by simp), if_neg h1, if_neg h2, if_neg (by simp [h3])]
    rw [ih hcs rest fields (current ++ [c]) q]
    simp

/-- Scanning an escaped value with the quote flag set copies it verbatim:
escaped backslashes and quotes ride through the escape flag, every other
character (commas and quotes included, since the flag is set) is copied. -/
theorem splitQF_escaped (s : List Char) :
    ∀ rest fields current,
      splitQF (ledgerEscape s ++ rest) fields current true false
        = splitQF rest fields (current ++ ledgerEscape s) true false := by
  induction s with
  | nil => intro rest fields current; simp [ledgerEscape, rep1]
  | cons c cs ih =>
    intro rest fields current
    by_cases hb : c = '\\'
    · subst hb
      have hexp : ledgerEscape ('\\' :: cs) = '\\' :: '\\' :: ledgerEscape cs := by
        simp [ledgerEscape, rep1]
      rw [hexp, List.cons_append, List.cons_append]
      rw [splitQF, if_neg (by simp), if_pos rfl]
      rw [splitQF, if_pos rfl]
      rw [ih rest fields ((current ++ ['\\']) ++ ['\\'])]
      simp [hexp]
    · by_cases hq : c = '"'
      · subst hq
        have hexp : ledgerEscape ('"' :: cs) = '\\' :: '"' :: ledgerEscape cs := by
          simp [ledgerEscape, rep1]
        rw [hexp, List.cons_append, List.cons_append]
        rw [splitQF, if_neg (by simp), if_pos rfl]
        rw [splitQF, if_pos rfl]
        rw [ih rest fields ((current ++ ['\\']) ++ ['"'])]
        simp [hexp]
      · have hexp : ledgerEscape (c :: cs) = c :: ledgerEscape cs := by
          simp [ledgerEscape, rep1, hb, hq]
        rw [hexp, List.cons_append]
        rw [splitQF, if_neg (by simp), if_neg hb, if_neg hq, if_neg (by simp)]
        rw [ih rest fields (current ++ [c])]
        simp [hexp]

/-- A top-level comma closes the current field. -/
theorem splitQF_comma (rest : List Char) (fields : List (List Char))
    (current : List Char) :
    splitQF (',' :: rest) fields current false false
      = splitQF rest (fields ++ [pyStrip current]) [] false false := by
  rw [splitQF]
  rw [if_neg (by simp), if_neg (by decide), if_neg (by decide),
    if_pos (by simp)]

/-- Scanning one whole `key:"escaped"` group. -/
theorem splitQF_field (kname v rest : List Char) (fields : List (List Char))
    (current : List Char)
    (hk : ∀ c ∈ kname, c ≠ '\\' ∧ c ≠ '"' ∧ c ≠ ',') :
    splitQF (kname ++ (':' :: ('"' :: (ledgerEscape v ++ ('"' :: rest)))))
        fields current false false
      = splitQF rest fields
          (current ++ (kname ++ (':' :: ('"' :: (ledgerEscape v ++ ['"'])))))
          false false := by
  rw [splitQF_lit kname hk]
  rw [splitQF, if_neg (by simp), if_neg (by decide), if_neg (by decide),
    if_neg (by simp)]
  rw [splitQF, if_neg (by simp), if_neg (by decide), if_pos rfl]
  show splitQF (ledgerEscape v ++ ('"' :: rest)) fields _ true false = _
  rw [splitQF_escaped v]
  rw [splitQF, if_neg (by simp), if_neg (by decide), if_pos rfl]
  show splitQF rest fields _ false false = _
  congr 1
  simp [List.append_assoc]

/-- Appending after a quoted field regroups to the scanner-friendly shape. -/
theorem quotedField_append (k v X : List Char) :
    quotedField k v ++ X
      = k ++ (':' :: ('"' :: (ledgerEscape v ++ ('"' :: X)))) := by
  simp [quotedField, List.append_assoc]

/-- The scanner splits a full ledger payload into its five parts. -/
theorem splitQuotedFields_ledgerPayload (e : LedgerEntry) :
    splitQuotedFields (ledgerPayload e) = some
      [pyStrip (quotedField "ts".toList e.ts),
       pyStrip (quotedField " type".toList e.type),
       pyStrip (quotedField " topic".toList e.topic),
       pyStrip (quotedField " content".toList e.content),
       pyStrip (quotedField " source".toList e.source)] := by
  unfold splitQuotedFields ledgerPayload
  rw [quotedField_append, splitQF_field _ _ _ _ _ (by decide), splitQF_comma]
  rw [quotedField_append, splitQF_field _ _ _ _ _ (by decide), splitQF_comma]
  rw [quotedField_append, splitQF_field _ _ _ _ _ (by decide), splitQF_comma]
  rw [quotedField_append, splitQF_field _ _ _ _ _ (by decide), splitQF_comma]
  rw [show quotedField " source".toList e.source
      = " source".toList
          ++ (':' :: ('"' :: (ledgerEscape e.source ++ ('"' :: [])))) from rfl]
  rw [splitQF_field _ _ _ _ _ (by decide)]
  rw [splitQF]
  rw [if_neg (by simp), if_neg (by simp [quotedField])]
  simp [quotedField]

/-- Stripping a quoted field whose key starts with a non-space is a no-op
(the text sits between a key letter and a closing quote). -/
theorem pyStrip_quotedField (c : Char) (krest v : List Char)
    (hc : isWS c = false) :
    pyStrip (quotedField (c :: krest) v) = quotedField (c :: krest) v := by
  have h : quotedField (c :: krest) v
      = c :: ((krest ++ (':' :: '"' :: ledgerEscape v)) ++ ['"']) := by
    simp [quotedField, List.append_assoc]
  rw [h, pyStrip_sandwich c '"' _ hc (by decide)]

/-- Stripping a quoted field with a leading space drops just that space. -/
theorem pyStrip_quotedField_space (k v : List Char) :
    pyStrip (quotedField (' ' :: k) v) = pyStrip (quotedField k v) := by
  have h : quotedField (' ' :: k) v = ' ' :: quotedField k v := by
    simp [quotedField]
  rw [h, pyStrip_space_cons]

/-- Splitting at the first colon of `key ++ ":" ++ X` recovers `key` and `X`
when the key is colon-free. -/
theorem splitFirstColon_append (k : List Char) (hk : ∀ c ∈ k, c ≠ ':')
    (X : List Char) :
    splitFirstColon (k ++ (':' :: X)) = some (k, X) := by
  induction k with
  | nil => simp [splitFirstColon]
  | cons c cs ih =>
    have hc := hk c (by simp)
    have hcs : ∀ c' ∈ cs, c' ≠ ':' := fun c' h' => hk c' (by simp [h'])
    rw [List.cons_append, splitFirstColon, if_neg hc, ih hcs]

/-- `parse_ledger_line`'s per-field step decodes a quoted field back to the
key and the original value. -/
theorem parsePart_quotedField (k v : List Char) (hk : ∀ c ∈ k, c ≠ ':')
    (hks : pyStrip k = k) :
    parsePart (quotedField k v) = some (k, v) := by
  unfold parsePart quotedField
  rw [splitFirstColon_append k hk]
  have hraw : pyStrip ('"' :: (ledgerEscape v ++ ['"']))
      = '"' :: (ledgerEscape v ++ ['"']) :=
    pyStrip_sandwich '"' '"' _ (by decide) (by decide)
  have hlast : ('"' :: (ledgerEscape v ++ ['"'])).getLast? = some '"' := by
    rw [show ('"' :: (ledgerEscape v ++ ['"']))
        = ('"' :: ledgerEscape v) ++ ['"'] by simp]
    exact getLast?_append_singleton _ _
  simp only [hraw, hks]
  rw [if_pos ⟨rfl, hlast⟩]
  have hdrop : (('"' :: (ledgerEscape v ++ ['"'])).drop 1).dropLast
      = ledgerEscape v := by
    simp
  rw [hdrop, ledgerUnescape_ledgerEscape]

theorem pyStrip_qf_ts (v : List Char) :
    pyStrip (quotedField "ts".toList v) = quotedField "ts".toList v :=
  pyStrip_quotedField 't' "s".toList v (by decide)

theorem pyStrip_qf_type (v : List Char) :
    pyStrip (quotedField " type".toList v) = quotedField "type".toList v := by
  have h1 : pyStrip (quotedField (' ' :: "type".toList) v)
      = pyStrip (quotedField "type".toList v) := pyStrip_quotedField_space _ v
  exact h1.trans (pyStrip_quotedField 't' "ype".toList v (by decide))

theorem pyStrip_qf_topic (v : List Char) :
    pyStrip (quotedField " topic".toList v) = quotedField "topic".toList v := by
  have h1 : pyStrip (quotedField (' ' :: "topic".toList) v)
      = pyStrip (quotedField "topic".toList v) := pyStrip_quotedField_space _ v
  exact h1.trans (pyStrip_quotedField 't' "opic".toList v (by decide))

theorem pyStrip_qf_content (v : List Char) :
    pyStrip (quotedField " content".toList v) = quotedField "content".toList v := by
  have h1 : pyStrip (quotedField (' ' :: "content".toList) v)
      = pyStrip (quotedField "content".toList v) := pyStrip_quotedField_space _ v
  exact h1.trans (pyStrip_quotedField 'c' "ontent".toList v (by decide))

theorem pyStrip_qf_source (v : List Char) :
    pyStrip (quotedField " source".toList v) = quotedField "source".toList v := by
  have h1 : pyStrip (quotedField (' ' :: "source".toList) v)
      = pyStrip (quotedField "source".toList v) := pyStrip_quotedField_space _ v
  exact h1.trans (pyStrip_quotedField 's' "ource".toList v (by decide))

/-- C1 main theorem, stated over the record components. -/
theorem parseLedgerLine_roundtrip_aux (ts ty tp ct sr : List Char)
    (h : LedgerEntry.validate ⟨ts, ty, tp, ct, sr⟩ = true) :
    parseLedgerLine (toLedgerLine ⟨ts, ty, tp, ct, sr⟩)
      = some ⟨ts, ty, tp, ct, sr⟩ := by
  have hline2 : toLedgerLine ⟨ts, ty, tp, ct, sr⟩
      = '-' :: ' ' :: '\x7b' :: (ledgerPayload ⟨ts, ty, tp, ct, sr⟩ ++ ['\x7d']) := rfl
  have hline : toLedgerLine ⟨ts, ty, tp, ct, sr⟩
      = '-' :: ((' ' :: '\x7b' :: ledgerPayload ⟨ts, ty, tp, ct, sr⟩) ++ ['\x7d']) := by
    rw [hline2]
    simp
  have hstrip : pyStrip (toLedgerLine ⟨ts, ty, tp, ct, sr⟩)
      = toLedgerLine ⟨ts, ty, tp, ct, sr⟩ := by
    rw [hline]
    exact pyStrip_sandwich '-' '\x7d' _ (by decide) (by decide)
  have hpre : ("- \x7b".toList.isPrefixOf (toLedgerLine ⟨ts, ty, tp, ct, sr⟩)) = true := by
    rw [hline2]
    simp [List.isPrefixOf]
  have hlast : (toLedgerLine ⟨ts, ty, tp, ct, sr⟩).getLast? = some '\x7d' := by
    rw [hline]
    rw [show ('-' :: ((' ' :: '\x7b' :: ledgerPayload ⟨ts, ty, tp, ct, sr⟩) ++ ['\x7d']))
        = ('-' :: ' ' :: '\x7b' :: ledgerPayload ⟨ts, ty, tp, ct, sr⟩) ++ ['\x7d'] by simp]
    exact getLast?_append_singleton _ _
  have hpay : (((toLedgerLine ⟨ts, ty, tp, ct, sr⟩).drop 3).dropLast)
      = ledgerPayload ⟨ts, ty, tp, ct, sr⟩ := by
    rw [hline2]
    simp
  have hp1 := parsePart_quotedField "ts".toList ts (by decide) (by decide)
  have hp2 := parsePart_quotedField "type".toList ty (by decide) (by decide)
  have hp3 := parsePart_quotedField "topic".toList tp (by decide) (by decide)
  have hp4 := parsePart_quotedField "content".toList ct (by decide) (by decide)
  have hp5 := parsePart_quotedField "source".toList sr (by decide) (by decide)
  simp only [parseLedgerLine]
  rw [hstrip, if_pos ⟨hpre, hlast⟩, hpay, splitQuotedFields_ledgerPayload]
  rw [pyStrip_qf_ts, pyStrip_qf_type, pyStrip_qf_topic, pyStrip_qf_content,
    pyStrip_qf_source]
  simp only [collectFields, hp1, hp2, hp3, hp4, hp5]
  simp only [alistGet]
  simp [h]

/-- C1: for every LedgerEntry whose type is in the enumerated set and whose
ts, topic, content and source fields are all non-empty — arbitrary content,
embedded quotes and backslashes included — decoding the encoded ledger line
returns a structurally equal entry. -/
theorem C1_ledger_line_roundtrip (e : LedgerEntry)
    (h1 : e.type ∈ ALLOWED_ENTRY_TYPES) (h2 : e.ts ≠ []) (h3 : e.topic ≠ [])
    (h4 : e.content ≠ []) (h5 : e.source ≠ []) :
    parseLedgerLine (toLedgerLine e) = some e := by
  obtain ⟨ts, ty, tp, ct, sr⟩ := e
  apply parseLedgerLine_roundtrip_aux
  simp [ALLOWED_ENTRY_TYPES] at h1
  unfold LedgerEntry.validate validateMsg
  rcases h1 with h | h | h | h | h | h | h | h <;>
    subst h <;>
    simp_all [ALLOWED_ENTRY_TYPES]

/-- C1 witness: a concrete entry whose content holds quotes and backslashes
round-trips. -/
theorem C1_witness :
    parseLedgerLine (toLedgerLine
      ⟨"2026-01-01T00:00:00+00:00".toList, "FACT".toList, "Continuity".toList,
        "say \"hi\", use C:\\tmp\\x, done\\".toList, "test".toList⟩)
      = some
      ⟨"2026-01-01T00:00:00+00:00".toList, "FACT".toList, "Continuity".toList,
        "say \"hi\", use C:\\tmp\\x, done\\".toList, "test".toList⟩ :=
  C1_ledger_line_roundtrip _ (by decide) (by decide) (by decide) (by decide)
    (by decide)

/-! ### Ledger object and its public operations (`ledger.Ledger`) -/

/-- In-memory `Ledger`: an ordered list of entries. -/
structure Ledger where
  entries : List LedgerEntry
deriving DecidableEq

/-- `Ledger.__init__(entries)`: stores the entries, then validates each;
`none` models the constructor raising (the partially built object is
discarded by the raise). -/
def mkLedger (es : List LedgerEntry) : Option Ledger :=
  if es.all LedgerEntry.validate then some ⟨es⟩ else none

/-- `Ledger.append`: validate first, then append; on a validation error the
ledger is left unchanged (the flag records whether a `ValueError` escaped). -/
def Ledger.appendOp (l : Ledger) (e : LedgerEntry) : Ledger × Bool :=
  if e.validate then (⟨l.entries ++ [e]⟩, true) else (l, false)

/-- `Ledger.extend`: append one by one, stopping at the first invalid entry
(the earlier appends stick, as in the Python loop). -/
def Ledger.extendOp (l : Ledger) : List LedgerEntry → Ledger × Bool
  | [] => (l, true)
  | e :: rest =>
    if (l.appendOp e).2 then (l.appendOp e).1.extendOp rest
    else ((l.appendOp e).1, false)

/-- `Ledger.append_to_file`: validate, append the encoded line to the file,
append the entry in memory. -/
def Ledger.appendToFileOp (l : Ledger) (file : List Char) (e : LedgerEntry) :
    Ledger × List Char × Bool :=
  if e.validate then (⟨l.entries ++ [e]⟩, file ++ toLedgerLine e ++ ['\n'], true)
  else (l, file, false)

/-- Ledgers reachable through the public operations. -/
inductive ReachableLedger : Ledger → Prop
  | init (es : List LedgerEntry) (l : Ledger) :
      mkLedger es = some l → ReachableLedger l
  | app (l : Ledger) (e : LedgerEntry) :
      ReachableLedger l → ReachableLedger (l.appendOp e).1
  | ext (l : Ledger) (es : List LedgerEntry) :
      ReachableLedger l → ReachableLedger (l.extendOp es).1
  | file (l : Ledger) (f : List Char) (e : LedgerEntry) :
      ReachableLedger l → ReachableLedger (l.appendToFileOp f e).1

theorem appendOp_valid (l : Ledger) (e : LedgerEntry)
    (h : ∀ x ∈ l.entries, x.validate = true) :
    ∀ x ∈ (l.appendOp e).1.entries, x.validate = true := by
  intro x hx
  unfold Ledger.appendOp at hx
  by_cases hv : e.validate = true
  · rw [if_pos hv] at hx
    simp at hx
    rcases hx with hx | hx
    · exact h x hx
    · rw [hx]; exact hv
  · rw [if_neg hv] at hx
    exact h x hx

theorem extendOp_valid (es : List LedgerEntry) :
    ∀ (l : Ledger), (∀ x ∈ l.entries, x.validate = true) →
      ∀ x ∈ (l.extendOp es).1.entries, x.validate = true := by
  induction es with
  | nil => intro l h x hx; exact h x hx
  | cons e rest ih =>
    intro l h x hx
    unfold Ledger.extendOp at hx
    by_cases hv : e.validate = true
    · have hstep : (l.appendOp e).2 = true := by simp [Ledger.appendOp, hv]
      rw [if_pos hstep] at hx
      exact ih (l.appendOp e).1 (appendOp_valid l e h) x hx
    · have hstep : (l.appendOp e).2 = false := by simp [Ledger.appendOp, hv]
      rw [if_neg (by simp [hstep])] at hx
      have hsame : (l.appendOp e).1 = l := by simp [Ledger.appendOp, hv]
      simp only [hsame] at hx
      exact h x hx

/-- C9: every ledger reachable through the public operations contains only
entries satisfying `validate` — each operation validates before inserting. -/
theorem C9_ledger_validity_invariant (l : Ledger) (h : ReachableLedger l) :
    ∀ e ∈ l.entries, e.validate = true := by
  induction h with
  | init es l0 hmk =>
    intro e he
    unfold mkLedger at hmk
    by_cases hall : es.all LedgerEntry.validate = true
    · rw [if_pos hall] at hmk
      cases hmk
      exact (List.all_eq_true.mp hall) e he
    · rw [if_neg hall] at hmk
      cases hmk
  | app l0 e _ ih => exact appendOp_valid l0 e ih
  | ext l0 es _ ih => exact extendOp_valid es l0 ih
  | file l0 f e _ ih =>
    intro x hx
    unfold Ledger.appendToFileOp at hx
    by_cases hv : e.validate = true
    · rw [if_pos hv] at hx
      simp at hx
      rcases hx with hx | hx
      · exact ih x hx
      · rw [hx]; exact hv
    · rw [if_neg hv] at hx
      exact ih x hx

/-- A concrete valid entry used by witnesses. -/
def sampleEntry : LedgerEntry :=
  ⟨"2026-01-01T00:00:00+00:00".toList, "PREF".toList, "Persistence".toList,
    "Write ledger line".toList, "test".toList⟩

/-- C9 witness: the invariant applied to a concrete reachable ledger. -/
theorem C9_witness : sampleEntry.validate = true :=
  C9_ledger_validity_invariant ⟨[sampleEntry]⟩
    (ReachableLedger.init [sampleEntry] ⟨[sampleEntry]⟩ (by decide))
    sampleEntry (by simp)

/-! ### Desire parser (`src/chorus/expansion.py`) -/

/-- Parsed desire record. -/
structure Desire where
  index : Nat
  title : List Char
  body : List Char
deriving DecidableEq, Repr

/-- In-flight accumulator of `parse_desires` (`current` dict). -/
structure CurAcc where
  index : Nat
  title : List Char
  bodyLines : List (List Char)
deriving DecidableEq

/-- Header regex `^(\d+)[).]\s+(.*)$` applied to an already-stripped line:
digits, a `)` or `.`, at least one whitespace, then the rest. -/
def matchHeader (s : List Char) : Option (Nat × List Char) :=
  let digits := s.takeWhile (fun c => c.isDigit)
  if digits = [] then none
  else
    match s.drop digits.length with
    | [] => none
    | c :: rest₂ =>
      if c = ')' ∨ c = '.' then
        let ws := rest₂.takeWhile isWS
        if ws = [] then none
        else some (digitsToNat digits, rest₂.drop ws.length)
      else none

/-- `expansion._finalize_desire`: drop the blank body lines, join the rest
with newlines, strip. The `title` is already stripped at creation time. -/
def finalizeDesire (cur : CurAcc) : Desire :=
  ⟨cur.index, cur.title,
    pyStrip (List.intercalate ['\n'] (cur.bodyLines.filter (fun l => l ≠ [])))⟩

/-- The main loop of `expansion.parse_desires` over the split lines. -/
def parseDesiresGo : List (List Char) → Option CurAcc → List Desire → List Desire
  | [], cur, acc =>
    acc ++ (match cur with | some c => [finalizeDesire c] | none => [])
  | line :: rest, cur, acc =>
    let s := pyStrip line
    if s = [] then
      match cur with
      | some c =>
        if c.bodyLines ≠ [] then
          parseDesiresGo rest (some ⟨c.index, c.title, c.bodyLines ++ [[]]⟩) acc
        else parseDesiresGo rest cur acc
      | none => parseDesiresGo rest cur acc
    else
      match matchHeader s with
      | some (n, restTitle) =>
        parseDesiresGo rest (some ⟨n, pyStrip restTitle, []⟩)
          (acc ++ (match cur with | some c => [finalizeDesire c] | none => []))
      | none =>
        match cur with
        | some c =>
          parseDesiresGo rest (some ⟨c.index, c.title, c.bodyLines ++ [s]⟩) acc
        | none => parseDesiresGo rest cur acc

/-- `expansion.parse_desires`. -/
def parseDesires (text : List Char) : List Desire :=
  parseDesiresGo (pySplitlines text) none []

/-- C3: evaluation of the code at the disputed input. A single interior blank
line between two body lines is NOT preserved by `parse_desires`:
`_finalize_desire` filters every blank body line out, so the body collapses
to `a\nb` rather than keeping the `a\n\nb` paragraph break the spec
describes. -/
theorem C3_interior_blank_line_dropped :
    parseDesires "1) T\na\n\nb\n".toList
      = [⟨1, "T".toList, "a\nb".toList⟩]
    ∧ parseDesires "1) T\na\n\nb\n".toList
      ≠ [⟨1, "T".toList, "a\n\nb".toList⟩] := by
  constructor
  · decide
  · decide

/-! ### JSON embedding (`json.loads` / `json.dumps`)

The decoded value keeps number lexemes instead of converting to floats;
none of the verified paths inspects a number's value beyond truthiness. -/

inductive Json where
  | null
  | bool (b : Bool)
  | num (lexeme : List Char)
  | str (s : List Char)
  | arr (items : List Json)
  | obj (fields : List (List Char × Json))

/-- JSON whitespace (` `, tab, newline, carriage return). -/
def jsWS (c : Char) : Bool := c = ' ' ∨ c = '\t' ∨ c = '\n' ∨ c = '\r'

def jpSkipWs (s : List Char) : List Char := s.dropWhile jsWS

def hexVal (c : Char) : Option Nat :=
  if '0' ≤ c ∧ c ≤ '9' then some (c.toNat - '0'.toNat)
  else if 'a' ≤ c ∧ c ≤ 'f' then some (c.toNat - 'a'.toNat + 10)
  else if 'A' ≤ c ∧ c ≤ 'F' then some (c.toNat - 'A'.toNat + 10)
  else none

/-- String body parser, positioned after the opening quote. Like the strict
Python decoder it rejects literal control characters (< 0x20) and unknown
escapes; `\uXXXX` escapes are decoded, surrogate pairs combined (a lone
surrogate, which Lean's `Char` cannot carry, degrades to `Char.ofNat`'s
default — no datum in this system exercises that corner). The fuel argument
only bounds recursion and is supplied amply by the callers (every step
consumes at least one character). -/
def jpStringBody : Nat → List Char → Option (List Char × List Char)
  | 0, _ => none
  | _ + 1, [] => none
  | fuel + 1, c :: rest =>
    if c = '"' then some ([], rest)
    else if c = '\\' then
      match rest with
      | [] => none
      | e :: rest₂ =>
        if e = '"' ∨ e = '\\' ∨ e = '/' then
          match jpStringBody fuel rest₂ with
          | some (s, r) => some (e :: s, r)
          | none => none
        else if e = 'b' then
          match jpStringBody fuel rest₂ with
          | some (s, r) => some ('\x08' :: s, r)
          | none => none
        else if e = 'f' then
          match jpStringBody fuel rest₂ with
          | some (s, r) => some ('\x0c' :: s, r)
          | none => none
        else if e = 'n' then
          match jpStringBody fuel rest₂ with
          | some (s, r) => some ('\n' :: s, r)
          | none => none
        else if e = 'r' then
          match jpStringBody fuel rest₂ with
          | some (s, r) => some ('\r' :: s, r)
          | none => none
        else if e = 't' then
          match jpStringBody fuel rest₂ with
          | some (s, r) => some ('\t' :: s, r)
          | none => none
        else if e = 'u' then
          match rest₂ with
          | h₁ :: h₂ :: h₃ :: h₄ :: rest₃ =>
            match hexVal h₁, hexVal h₂, hexVal h₃, hexVal h₄ with
            | some v₁, some v₂, some v₃, some v₄ =>
              let code := 4096 * v₁ + 256 * v₂ + 16 * v₃ + v₄
              if 0xd800 ≤ code ∧ code ≤ 0xdbff then
                match rest₃ with
                | '\\' :: 'u' :: g₁ :: g₂ :: g₃ :: g₄ :: rest₄ =>
                  match hexVal g₁, hexVal g₂, hexVal g₃, hexVal g₄ with
                  | some w₁, some w₂, some w₃, some w₄ =>
                    let code₂ := 4096 * w₁ + 256 * w₂ + 16 * w₃ + w₄
                    if 0xdc00 ≤ code₂ ∧ code₂ ≤ 0xdfff then
                      match jpStringBody fuel rest₄ with
                      | some (s, r) =>
                        some (Char.ofNat
                          (0x10000 + 1024 * (code - 0xd800) + (code₂ - 0xdc00))
                          :: s, r)
                      | none => none
                    else
                      match jpStringBody fuel rest₃ with
                      | some (s, r) => some (Char.ofNat code :: s, r)
                      | none => none
                  | _, _, _, _ =>
                    match jpStringBody fuel rest₃ with
                    | some (s, r) => some (Char.ofNat code :: s, r)
                    | none => none
                | _ =>
                  match jpStringBody fuel rest₃ with
                  | some (s, r) => some (Char.ofNat code :: s, r)
                  | none => none
              else
                match jpStringBody fuel rest₃ with
                | some (s, r) => some (Char.ofNat code :: s, r)
                | none => none
            | _, _, _, _ => none
          | _ => none
        else none
    else if c.toNat < 0x20 then none
    else
      match jpStringBody fuel rest with
      | some (s, r) => some (c :: s, r)
      | none => none

/-- Number lexeme per the JSON grammar `-?(0|[1-9]\d*)(\.\d+)?([eE][+-]?\d+)?`. -/
def jpNumber (s : List Char) : Option (List Char × List Char) :=
  let signed := s.head? = some '-'
  let s₁ := if signed then s.drop 1 else s
  match s₁.head? with
  | none => none
  | some c =>
    if ¬ c.isDigit then none
    else
      let intPart := if c = '0' then ['0'] else s₁.takeWhile (fun d => d.isDigit)
      let s₂ := s₁.drop intPart.length
      let fracDigits :=
        if s₂.head? = some '.' then (s₂.drop 1).takeWhile (fun d => d.isDigit)
        else []
      if s₂.head? = some '.' ∧ fracDigits = [] then none
      else
        let fracPart := if fracDigits = [] then [] else '.' :: fracDigits
        let s₃ := s₂.drop fracPart.length
        let hasExp := s₃.head? = some 'e' ∨ s₃.head? = some 'E'
        if hasExp then
          let eChar := s₃.take 1
          let s₄ := s₃.drop 1
          let eSign := if s₄.head? = some '+' ∨ s₄.head? = some '-' then s₄.take 1 else []
          let s₅ := s₄.drop eSign.length
          let eDigits := s₅.takeWhile (fun d => d.isDigit)
          if eDigits = [] then none
          else
            some ((if signed then ['-'] else []) ++ intPart ++ fracPart
                ++ eChar ++ eSign ++ eDigits,
              s₅.drop eDigits.length)
        else
          some ((if signed then ['-'] else []) ++ intPart ++ fracPart, s₃)

/-- Replace-or-append with Python `dict` semantics: a repeated key keeps its
first position but takes the latest value. -/
def objUpsert (acc : List (List Char × Json)) (k : List Char) (v : Json) :
    List (List Char × Json) :=
  if acc.any (fun kv => kv.1 == k) then
    acc.map (fun kv => if kv.1 == k then (k, v) else kv)
  else acc ++ [(k, v)]

mutual

/-- JSON value parser (`json.loads` core); the fuel argument only bounds
recursion depth and is supplied amply by `jsonParseFull`. -/
def jpValue : Nat → List Char → Option (Json × List Char)
  | 0, _ => none
  | fuel + 1, s =>
    match s with
    | [] => none
    | c :: rest =>
      if c = '\x7b' then jpMembersStart fuel (jpSkipWs rest)
      else if c = '[' then jpItemsStart fuel (jpSkipWs rest)
      else if c = '"' then
        match jpStringBody (rest.length + 1) rest with
        | some (str, r) => some (Json.str str, r)
        | none => none
      else if c = 't' then
        if "rue".toList.isPrefixOf rest then some (Json.bool true, rest.drop 3)
        else none
      else if c = 'f' then
        if "alse".toList.isPrefixOf rest then some (Json.bool false, rest.drop 4)
        else none
      else if c = 'n' then
        if "ull".toList.isPrefixOf rest then some (Json.null, rest.drop 3)
        else none
      else if c = 'N' then
        if "aN".toList.isPrefixOf rest then some (Json.num "NaN".toList, rest.drop 2)
        else none
      else if c = 'I' then
        if "nfinity".toList.isPrefixOf rest then
          some (Json.num "Infinity".toList, rest.drop 7)
        else none
      else if c = '-' ∧ "Infinity".toList.isPrefixOf rest then
        some (Json.num "-Infinity".toList, rest.drop 8)
      else
        match jpNumber (c :: rest) with
        | some (lex, r) => some (Json.num lex, r)
        | none => none

def jpItemsStart : Nat → List Char → Option (Json × List Char)
  | 0, _ => none
  | fuel + 1, s =>
    match s with
    | ']' :: r => some (Json.arr [], r)
    | _ => jpItems fuel s []

def jpItems : Nat → List Char → List Json → Option (Json × List Char)
  | 0, _, _ => none
  | fuel + 1, s, acc =>
    match jpValue fuel s with
    | none => none
    | some (v, r) =>
      match jpSkipWs r with
      | ',' :: r₂ => jpItems fuel (jpSkipWs r₂) (acc ++ [v])
      | ']' :: r₂ => some (Json.arr (acc ++ [v]), r₂)
      | _ => none

def jpMembersStart : Nat → List Char → Option (Json × List Char)
  | 0, _ => none
  | fuel + 1, s =>
    match s with
    | '\x7d' :: r => some (Json.obj [], r)
    | _ => jpMembers fuel s []

def jpMembers : Nat → List Char → List (List Char × Json) →
    Option (Json × List Char)
  | 0, _, _ => none
  | fuel + 1, s, acc =>
    match s with
    | '"' :: rest =>
      match jpStringBody (rest.length + 1) rest with
      | none => none
      | some (k, r) =>
        match jpSkipWs r with
        | ':' :: r₂ =>
          match jpValue fuel (jpSkipWs r₂) with
          | none => none
          | some (v, r₃) =>
            match jpSkipWs r₃ with
            | ',' :: r₄ => jpMembers fuel (jpSkipWs r₄) (objUpsert acc k v)
            | '\x7d' :: r₄ => some (Json.obj (objUpsert acc k v), r₄)
            | _ => none
        | _ => none
    | _ => none

end

/-- `json.loads`: the whole input must be one JSON value surrounded only by
whitespace; `none` models `JSONDecodeError`. -/
def jsonParseFull (s : List Char) : Option Json :=
  match jpValue (4 * s.length + 8) (jpSkipWs s) with
  | none => none
  | some (v, rest) => if jpSkipWs rest = [] then some v else none

def hexDigit (n : Nat) : Char :=
  if n < 10 then Char.ofNat ('0'.toNat + n) else Char.ofNat ('a'.toNat + (n - 10))

def toHex4 (n : Nat) : List Char :=
  [hexDigit (n / 4096 % 16), hexDigit (n / 256 % 16), hexDigit (n / 16 % 16),
   hexDigit (n % 16)]

/-- One character under `json.dumps`' default `ensure_ascii` escaping. -/
def jsonEscapeChar (c : Char) : List Char :=
  if c = '"' then ['\\', '"']
  else if c = '\\' then ['\\', '\\']
  else if c = '\n' then ['\\', 'n']
  else if c = '\r' then ['\\', 'r']
  else if c = '\t' then ['\\', 't']
  else if c = '\x08' then ['\\', 'b']
  else if c = '\x0c' then ['\\', 'f']
  else if c.toNat < 0x20 ∨ c.toNat > 0x7e then
    if c.toNat ≥ 0x10000 then
      let v := c.toNat - 0x10000
      ['\\', 'u'] ++ toHex4 (0xd800 + v / 1024) ++ ['\\', 'u']
        ++ toHex4 (0xdc00 + v % 1024)
    else ['\\', 'u'] ++ toHex4 c.toNat
  else [c]

/-- A JSON string literal for `s`. -/
def jsonQuote (s : List Char) : List Char :=
  '"' :: ((s.map jsonEscapeChar).flatten ++ ['"'])

/-- Lexicographic comparison of keys by code point (Python `sorted` on str). -/
def keyLe : List Char → List Char → Bool
  | [], _ => true
  | _ :: _, [] => false
  | a :: as, b :: bs =>
    if a.toNat < b.toNat then true
    else if b.toNat < a.toNat then false
    else keyLe as bs

def insertSorted (kv : List Char × List Char) :
    List (List Char × List Char) → List (List Char × List Char)
  | [] => [kv]
  | x :: xs => if keyLe kv.1 x.1 then kv :: x :: xs else x :: insertSorted kv xs

def sortRendered (l : List (List Char × List Char)) :
    List (List Char × List Char) :=
  l.foldr insertSorted []

def indentChars (lvl : Nat) : List Char := List.replicate (2 * lvl) ' '

mutual

/-- `json.dumps(x, indent=2, sort_keys=True)`; the fuel only bounds depth
and is supplied amply by the callers. -/
def jsonDumpIndent : Nat → Json → Nat → List Char
  | 0, _, _ => []
  | _ + 1, .null, _ => "null".toList
  | _ + 1, .bool true, _ => "true".toList
  | _ + 1, .bool false, _ => "false".toList
  | _ + 1, .num lex, _ => lex
  | _ + 1, .str s, _ => jsonQuote s
  | _ + 1, .arr [], _ => "[]".toList
  | fuel + 1, .arr (i :: is), lvl =>
    "[\n".toList
      ++ List.intercalate ",\n".toList
          ((jsonDumpItems fuel (i :: is) (lvl + 1)).map
            (fun r => indentChars (lvl + 1) ++ r))
      ++ ('\n' :: (indentChars lvl ++ "]".toList))
  | _ + 1, .obj [], _ => "\x7b\x7d".toList
  | fuel + 1, .obj (kv :: kvs), lvl =>
    "\x7b\n".toList
      ++ List.intercalate ",\n".toList
          ((sortRendered (jsonDumpFields fuel (kv :: kvs) (lvl + 1))).map
            (fun r => indentChars (lvl + 1) ++ jsonQuote r.1 ++ ": ".toList ++ r.2))
      ++ ('\n' :: (indentChars lvl ++ "\x7d".toList))

def jsonDumpItems : Nat → List Json → Nat → List (List Char)
  | 0, _, _ => []
  | _ + 1, [], _ => []
  | fuel + 1, j :: js, lvl => jsonDumpIndent fuel j lvl :: jsonDumpItems fuel js lvl

def jsonDumpFields : Nat → List (List Char × Json) → Nat →
    List (List Char × List Char)
  | 0, _, _ => []
  | _ + 1, [], _ => []
  | fuel + 1, kv :: kvs, lvl =>
    (kv.1, jsonDumpIndent fuel kv.2 lvl) :: jsonDumpFields fuel kvs lvl

end

/-- Python truthiness of a decoded JSON value (`if state_payload`). -/
def numLexZero (lex : List Char) : Bool :=
  let noSign := match lex with | '-' :: r => r | '+' :: r => r | l => l
  let mantissa := noSign.takeWhile (fun c => c ≠ 'e' ∧ c ≠ 'E')
  mantissa ≠ [] ∧ mantissa.all (fun c => c = '0' ∨ c = '.')

def jsonTruthy : Json → Bool
  | .null => false
  | .bool b => b
  | .num lex => ¬ numLexZero lex
  | .str s => s ≠ []
  | .arr items => !items.isEmpty
  | .obj fields => !fields.isEmpty

/-! ### Response resolver (`src/chorus/evolution.py`) -/

/-- Suffix check after the lazily matched closing brace of the fenced-JSON
regex: optional whitespace then a closing fence. -/
def fenceAfterGroup (l : List Char) : Bool :=
  "```".toList.isPrefixOf (l.dropWhile isWS)

/-- Lazy group scan of `(\{.*?\})`: the shortest extension ending at a `\x7d`
whose suffix closes the fence. -/
def fenceGroupEnd : List Char → Option (List Char)
  | [] => none
  | c :: rest =>
    if c = '\x7d' ∧ fenceAfterGroup rest then some []
    else match fenceGroupEnd rest with
      | some inner => some (c :: inner)
      | none => none

/-- Attempt the fenced-JSON regex match anchored at the given position. -/
def fenceAttempt (s : List Char) : Option (List Char) :=
  if "```".toList.isPrefixOf s then
    let s₁ := s.drop 3
    let s₂ := if "json".toList.isPrefixOf s₁ then s₁.drop 4 else s₁
    match s₂.dropWhile isWS with
    | '\x7b' :: rest =>
      match fenceGroupEnd rest with
      | some inner => some ('\x7b' :: (inner ++ ['\x7d']))
      | none => none
    | _ => none
  else none

/-- `re.search` of the fenced-JSON pattern: leftmost successful anchor. -/
def fenceSearch : List Char → Option (List Char)
  | [] => none
  | c :: rest =>
    match fenceAttempt (c :: rest) with
    | some g => some g
    | none => fenceSearch rest

def firstBraceIdx (s : List Char) : Option Nat := s.findIdx? (fun c => c = '\x7b')

def lastBraceIdx (s : List Char) : Option Nat :=
  match s.reverse.findIdx? (fun c => c = '\x7d') with
  | some i => some (s.length - 1 - i)
  | none => none

/-- `evolution._extract_json_candidate`. -/
def extractJsonCandidate (response : List Char) : Option (List Char) :=
  if response.head? = some '\x7b' then some response
  else
    match fenceSearch response with
    | some g => some (pyStrip g)
    | none =>
      match firstBraceIdx response, lastBraceIdx response with
      | some st, some en =>
        if st < en then some (pyStrip ((response.drop st).take (en + 1 - st)))
        else none
      | _, _ => none

/-- Attempt the `"desires"\s*:\s*"(.*)` match anchored at this position;
returns the capture group (everything to the end, `re.DOTALL`). -/
def desiresFragAttempt (s : List Char) : Option (List Char) :=
  if "\"desires\"".toList.isPrefixOf s then
    match (s.drop 9).dropWhile isWS with
    | ':' :: r =>
      match r.dropWhile isWS with
      | '"' :: g => some g
      | _ => none
    | _ => none
  else none

def desiresFragSearch : List Char → Option (List Char)
  | [] => none
  | c :: rest =>
    match desiresFragAttempt (c :: rest) with
    | some g => some g
    | none => desiresFragSearch rest

/-- Language of `\s*[,}]?\s*`: whitespace with at most one comma or brace. -/
def quoteJunkSuffix (l : List Char) : Bool :=
  match l.filter (fun c => ¬ isWS c) with
  | [] => true
  | [c] => c = ',' ∨ c = '\x7d'
  | _ => false

/-- `re.sub(r'"\s*[,}]?\s*$', "", raw)`: delete the leftmost suffix made of
a quote, optional whitespace, an optional comma or closing brace, and
optional whitespace. -/
def stripTrailingQuoteJunk : List Char → List Char
  | [] => []
  | c :: rest =>
    if c = '"' ∧ quoteJunkSuffix rest then []
    else c :: stripTrailingQuoteJunk rest

/-- `evolution._recover_desires_text`. -/
def recoverDesiresText (response : List Char) : Option (List Char) :=
  match desiresFragSearch response with
  | none => none
  | some g =>
    let raw := pyRStrip g
    let raw₁ := stripTrailingQuoteJunk raw
    let raw₂ := pyStrip raw₁
    if raw₂ = [] then none
    else
      let normalized :=
        rep2 '\\' '\\' '\\'
          (rep2 '\\' '"' '"'
            (rep2 '\\' 'r' '\r'
              (rep2 '\\' 't' '\t'
                (rep2 '\\' 'n' '\n' raw₂))))
      let out := pyStrip normalized
      if out = [] then none else some out

/-- One proposed file edit of a payload. -/
structure FileEntry where
  path : List Char
  content : List Char
deriving DecidableEq, Repr

/-- `evolution.EvolutionPayload`. -/
structure EvolutionPayload where
  desires : List Char
  files : List FileEntry
deriving DecidableEq, Repr

/-- `evolution._recover_payload_from_invalid_json` (with the Python
truthiness re-check of the recovered text). -/
def recoverPayloadFromInvalidJson (response : List Char) :
    Option EvolutionPayload :=
  match recoverDesiresText response with
  | some d => if d ≠ [] then some ⟨d, []⟩ else none
  | none => none

/-- `evolution._numbered_list`. -/
def numberedGo : Nat → List (List Char) → List (List Char)
  | _, [] => []
  | n, x :: xs => (natToChars n ++ (')' :: ' ' :: pyStrip x)) :: numberedGo (n + 1) xs

def numberedList (items : List (List Char)) : List Char :=
  List.intercalate ['\n'] (numberedGo 1 items)

def jsonIsStr : Json → Bool
  | .str _ => true
  | _ => false

def jsonStrVal : Json → List Char
  | .str s => s
  | _ => []

/-- The `files` leg of `_parse_response_payload` (lines 390-403). -/
def normalizeFiles : List Json → Except (List Char) (List FileEntry)
  | [] => .ok []
  | item :: rest =>
    match item with
    | .obj fs =>
      match alistGet "path".toList fs, alistGet "content".toList fs with
      | some (.str p), some (.str ct) =>
        match normalizeFiles rest with
        | .ok t => .ok (⟨p, ct⟩ :: t)
        | .error m => .error m
      | _, _ =>
        .error "Each file entry must include string 'path' and 'content'.".toList
    | _ => .error "Each file entry must be an object.".toList

/-- `data.get("files", [])` with the `None`-to-`[]` normalization. -/
def filesJson (fields : List (List Char × Json)) : Json :=
  match alistGet "files".toList fields with
  | none => Json.arr []
  | some .null => Json.arr []
  | some v => v

def payloadWithDesires (d : List Char) (fields : List (List Char × Json)) :
    Option EvolutionPayload × Option (List Char) :=
  match filesJson fields with
  | .arr items =>
    match normalizeFiles items with
    | .ok fs => (some ⟨d, fs⟩, none)
    | .error m => (none, some m)
  | _ => (none, some "Response JSON 'files' must be a list.".toList)

/-- The post-decode leg of `_parse_response_payload` (lines 381-404). -/
def payloadFromJson (data : Json) : Option EvolutionPayload × Option (List Char) :=
  match data with
  | .obj fields =>
    match alistGet "desires".toList fields with
    | some (.arr items) =>
      if items.all jsonIsStr then
        payloadWithDesires (numberedList (items.map jsonStrVal)) fields
      else
        (none, some "Response JSON desires list entries must be strings.".toList)
    | some (.str s) => payloadWithDesires s fields
    | _ => (none, some "Response JSON must include a 'desires' string.".toList)
  | _ => (none, some "Response JSON must be an object.".toList)

/-- The no-candidate / empty-candidate leg of `_parse_response_payload`:
fragment recovery, then the single-desire fallback. -/
def fallbackResolve (stripped : List Char) :
    Option EvolutionPayload × Option (List Char) :=
  match recoverPayloadFromInvalidJson stripped with
  | some rec => (some rec, none)
  | none => (some ⟨stripped, []⟩, none)

/-- `evolution._parse_response_payload`. -/
def parseResponsePayload (response : List Char) :
    Option EvolutionPayload × Option (List Char) :=
  let stripped := pyStrip response
  if stripped = [] then (none, some "Response was empty.".toList)
  else
    match extractJsonCandidate stripped with
    | some cand =>
      if cand = [] then fallbackResolve stripped
      else
        match jsonParseFull cand with
        | none =>
          match recoverPayloadFromInvalidJson cand with
          | some rec => (some rec, none)
          | none => (none, some "Response JSON could not be parsed.".toList)
        | some data => payloadFromJson data
    | none => fallbackResolve stripped

/-- `evolution._extract_list_items` (bullet regex `^\s*[-*•]\s+(.*)$`). -/
def extractListItems (lines : List (List Char)) : List (List Char) :=
  lines.filterMap (fun line =>
    match line.dropWhile isWS with
    | [] => none
    | b :: rest =>
      if b = '-' ∨ b = '*' ∨ b = '•' then
        let ws₂ := rest.takeWhile isWS
        if ws₂ = [] then none
        else
          let t := pyStrip (rest.drop ws₂.length)
          if t = [] then none else some t
      else none)

/-- Loop of `evolution._normalize_single_desire`: retitle the first
non-blank (right-stripped) line. -/
def normalizeSingleDesireGo : List (List Char) → List (List Char)
  | [] => []
  | l :: rest =>
    if pyStrip l ≠ [] then ("1) ".toList ++ pyStrip l) :: rest
    else l :: normalizeSingleDesireGo rest

def normalizeSingleDesire (text : List Char) : List Char :=
  pyStrip (List.intercalate ['\n']
    (normalizeSingleDesireGo ((pySplitlines text).map pyRStrip)))

/-- `evolution._normalize_desires_text`. -/
def normalizeDesiresText (d : List Char) : List Char :=
  let stripped := pyStrip d
  if stripped = [] then []
  else if parseDesires stripped ≠ [] then stripped
  else
    let items := extractListItems (pySplitlines stripped)
    if items ≠ [] then numberedList items
    else normalizeSingleDesire stripped

theorem fallbackResolve_payload (s : List Char) :
    ∃ p, fallbackResolve s = (some p, none) := by
  unfold fallbackResolve
  cases h : recoverPayloadFromInvalidJson s with
  | some rec => exact ⟨rec, rfl⟩
  | none => exact ⟨⟨s, []⟩, rfl⟩

theorem payloadWithDesires_shape (d : List Char) (fields : List (List Char × Json)) :
    (∃ p, payloadWithDesires d fields = (some p, none))
      ∨ (∃ m, payloadWithDesires d fields = (none, some m)) := by
  unfold payloadWithDesires
  repeat' split
  all_goals first
    | exact Or.inl ⟨_, rfl⟩
    | exact Or.inr ⟨_, rfl⟩

theorem payloadFromJson_shape (data : Json) :
    (∃ p, payloadFromJson data = (some p, none))
      ∨ (∃ m, payloadFromJson data = (none, some m)) := by
  unfold payloadFromJson
  repeat' split
  all_goals first
    | apply payloadWithDesires_shape
    | exact Or.inl ⟨_, rfl⟩
    | exact Or.inr ⟨_, rfl⟩

theorem parseResponsePayload_shape (s : List Char) :
    (∃ p, parseResponsePayload s = (some p, none))
      ∨ (∃ m, parseResponsePayload s = (none, some m)) := by
  simp only [parseResponsePayload]
  by_cases h0 : pyStrip s = []
  · rw [if_pos h0]
    exact Or.inr ⟨_, rfl⟩
  · rw [if_neg h0]
    cases hc : extractJsonCandidate (pyStrip s) with
    | none =>
      dsimp only
      obtain ⟨p, hp⟩ := fallbackResolve_payload (pyStrip s)
      exact Or.inl ⟨p, hp⟩
    | some cand =>
      dsimp only
      by_cases hce : cand = []
      · rw [if_pos hce]
        obtain ⟨p, hp⟩ := fallbackResolve_payload (pyStrip s)
        exact Or.inl ⟨p, hp⟩
      · rw [if_neg hce]
        cases hj : jsonParseFull cand with
        | none =>
          dsimp only
          cases hr : recoverPayloadFromInvalidJson cand with
          | some rec => exact Or.inl ⟨rec, rfl⟩
          | none => exact Or.inr ⟨_, rfl⟩
        | some data => exact payloadFromJson_shape data

/-- C6: the response resolver never raises — every input yields either a
payload or a reason — and an input with no JSON candidate and no recoverable
desires fragment falls back to a payload whose desires field is the whole
trimmed response. -/
theorem C6_resolver_total_with_fallback (r : List Char)
    (h1 : pyStrip r ≠ [])
    (h2 : extractJsonCandidate (pyStrip r) = none)
    (h3 : recoverDesiresText (pyStrip r) = none) :
    parseResponsePayload r = (some ⟨pyStrip r, []⟩, none)
      ∧ ∀ s, (∃ p, parseResponsePayload s = (some p, none))
          ∨ (∃ m, parseResponsePayload s = (none, some m)) := by
  constructor
  · simp only [parseResponsePayload]
    rw [if_neg h1, h2]
    unfold fallbackResolve recoverPayloadFromInvalidJson
    rw [h3]
  · exact parseResponsePayload_shape

/-- C6 witness instantiated at a plain-text reply. -/
theorem C6_witness :
    parseResponsePayload "hello world".toList
        = (some ⟨pyStrip "hello world".toList, []⟩, none)
      ∧ ∀ s, (∃ p, parseResponsePayload s = (some p, none))
          ∨ (∃ m, parseResponsePayload s = (none, some m)) :=
  C6_resolver_total_with_fallback "hello world".toList (by decide) (by decide)
    (by decide)

theorem recoverDesiresText_nonempty (x d : List Char)
    (h : recoverDesiresText x = some d) : d ≠ [] := by
  unfold recoverDesiresText at h
  cases hf : desiresFragSearch x with
  | none => rw [hf] at h; cases h
  | some g =>
    rw [hf] at h
    simp only [] at h
    by_cases h1 : pyStrip (stripTrailingQuoteJunk (pyRStrip g)) = []
    · rw [if_pos h1] at h; cases h
    · rw [if_neg h1] at h
      set out := pyStrip (rep2 '\\' '\\' '\\' (rep2 '\\' '"' '"' (rep2 '\\' 'r' '\r'
        (rep2 '\\' 't' '\t' (rep2 '\\' 'n' '\n'
          (pyStrip (stripTrailingQuoteJunk (pyRStrip g)))))))) with hout
      by_cases h2 : out = []
      · rw [if_pos h2] at h; cases h
      · rw [if_neg h2] at h
        have hd := Option.some.inj h
        rw [← hd]
        exact h2

/-- C7: when the extracted candidate fails strict JSON decoding but a
`"desires"` fragment is recoverable, the resolver returns a payload carrying
the recovered (necessarily non-empty) desires text, never a failure. -/
theorem C7_recovery_on_broken_json (r cand d : List Char)
    (h1 : pyStrip r ≠ [])
    (h2 : extractJsonCandidate (pyStrip r) = some cand)
    (h3 : cand ≠ [])
    (h4 : (jsonParseFull cand).isNone = true)
    (h5 : recoverDesiresText cand = some d) :
    parseResponsePayload r = (some ⟨d, []⟩, none) ∧ d ≠ [] := by
  have hd : d ≠ [] := recoverDesiresText_nonempty cand d h5
  constructor
  · simp only [parseResponsePayload]
    rw [if_neg h1, h2]
    dsimp only
    rw [if_neg h3]
    cases hj : jsonParseFull cand with
    | some data => rw [hj] at h4; cases h4
    | none =>
      dsimp only
      unfold recoverPayloadFromInvalidJson
      rw [h5]
      dsimp only
      rw [if_pos hd]
  · exact hd

/-- C7 witness: the regression reply with a literal newline inside the
`desires` string value. -/
theorem C7_witness :
    parseResponsePayload
        "\x7b\n  \"desires\": \"- First desire\n- Second desire\n\"\n\x7d".toList
        = (some ⟨"- First desire\n- Second desire".toList, []⟩, none)
      ∧ "- First desire\n- Second desire".toList ≠ ([] : List Char) :=
  C7_recovery_on_broken_json
    "\x7b\n  \"desires\": \"- First desire\n- Second desire\n\"\n\x7d".toList
    "\x7b\n  \"desires\": \"- First desire\n- Second desire\n\"\n\x7d".toList
    "- First desire\n- Second desire".toList
    (by decide) (by decide) (by decide) (by decide) (by decide)

/-! ### File system model, paths and `_write_files` -/

/-- Absolute path as a normalized component list (relative to the root). -/
abbrev AbsPath := List (List Char)

/-- `(base_dir / relative_path).resolve()` without symlinks: split the
relative path on `/`, drop empty and `.` components (as `pathlib` does),
restart from the root when the path is absolute, and fold `..` as a parent
step. -/
def resolvePath (base : AbsPath) (rel : List Char) : AbsPath :=
  let comps := (splitOnChar '/' rel).filter
    (fun c => c ≠ [] ∧ c ≠ ".".toList)
  let start := if rel.head? = some '/' then [] else base
  comps.foldl
    (fun acc c => if c = "..".toList then acc.dropLast else acc ++ [c]) start

/-- `destination.parents`: every proper ancestor path. -/
def pathParents (p : AbsPath) : List AbsPath :=
  (List.range p.length).map (fun k => p.take k)

/-- The guard of `_write_files` in positive form: the write is allowed iff
`base_dir in destination.parents or destination == base_dir`. -/
def insideBase (base dest : AbsPath) : Bool :=
  (pathParents dest).contains base || dest == base

/-- On-disk state touched by the loops: the four named files (`none` means
the file does not exist) plus the map of extra files written via `files`
payload entries. -/
structure Fs where
  desires : Option (List Char)
  ledger : Option (List Char)
  stateJ : Option (List Char)
  sessionLog : Option (List Char)
  extra : List (AbsPath × List Char)
deriving DecidableEq, Repr

/-- Overwrite-or-create semantics of `destination.write_text`. -/
def extraUpsert : List (AbsPath × List Char) → AbsPath → List Char →
    List (AbsPath × List Char)
  | [], k, v => [(k, v)]
  | kv :: rest, k, v =>
    if kv.1 = k then (k, v) :: rest else kv :: extraUpsert rest k v

def extraLookup (m : List (AbsPath × List Char)) (k : AbsPath) :
    Option (List Char) :=
  (m.find? (fun kv => kv.1 == k)).map Prod.snd

/-- `evolution._write_files` over the model: returns the resulting state,
the destinations written (in order) and the message of the `ValueError`
raised at the first path resolving outside the base directory, if any. -/
def writeFilesGo (base : AbsPath) :
    List FileEntry → Fs → List AbsPath → Fs × List AbsPath × Option (List Char)
  | [], fs, written => (fs, written, none)
  | f :: rest, fs, written =>
    if insideBase base (resolvePath base f.path) then
      writeFilesGo base rest
        { fs with
          extra := extraUpsert fs.extra (resolvePath base f.path) f.content }
        (written ++ [resolvePath base f.path])
    else
      (fs, written,
        some ("Refusing to write outside base directory: ".toList ++ f.path))

def writeFilesRun (base : AbsPath) (files : List FileEntry) (fs : Fs) :
    Fs × List AbsPath × Option (List Char) :=
  writeFilesGo base files fs []

/-! ### Expansion materialization (`expansion.materialize_expansion`,
`state.export_state`) over file contents -/

/-- The `LedgerEntry.now(...)` built for one desire inside
`build_expansion_ledger`. -/
def ledgerEntryOfDesire (now source : List Char) (d : Desire) : LedgerEntry :=
  ⟨now, "PROJECT".toList, d.title,
    (if d.body = [] then "Expansion desire captured.".toList else d.body),
    source⟩

/-- `build_expansion_ledger`: append each entry, validating as `Ledger.append`
does; the first `ValueError` aborts. -/
def buildExpansionEntries (now source : List Char) :
    List Desire → Except (List Char) (List LedgerEntry)
  | [] => .ok []
  | d :: rest =>
    match validateMsg (ledgerEntryOfDesire now source d) with
    | some m => .error m
    | none =>
      match buildExpansionEntries now source rest with
      | .ok t => .ok (ledgerEntryOfDesire now source d :: t)
      | .error m => .error m

/-- The snapshot JSON of `build_expansion_state` for one desire. -/
def desireJson (d : Desire) : Json :=
  .obj [("index".toList, .num (natToChars d.index)),
        ("title".toList, .str d.title),
        ("body".toList, .str d.body)]

/-- The full `export_state` document `{"timestamp": ..., "state": ...}`. -/
def expansionStateJson (now : List Char) (ds : List Desire) : Json :=
  .obj [("timestamp".toList, .str now),
        ("state".toList,
          .obj [("desires".toList, .arr (ds.map desireJson)),
                ("desire_count".toList, .num (natToChars ds.length))])]

/-- `export_state` file content: sorted, 2-space-indented JSON plus a
trailing newline (the dump fuel 32 amply covers this fixed-depth document). -/
def exportStateContent (j : Json) : List Char :=
  jsonDumpIndent 32 j 0 ++ ['\n']

/-- `materialize_expansion` reduced to content transformation: parse the
desires text, produce the new ledger file content and state file content. -/
def materializeStrings (now source : List Char) (desiresContent : List Char) :
    Except (List Char) (List Char × List Char) :=
  match buildExpansionEntries now source (parseDesires desiresContent) with
  | .error m => .error m
  | .ok entries =>
    let ledgerOut := List.intercalate ['\n'] (entries.map toLedgerLine)
    .ok (ledgerOut ++ (if ledgerOut = [] then [] else ['\n']),
      exportStateContent (expansionStateJson now (parseDesires desiresContent)))

/-- `materialize_expansion` as an `Fs` transition (reads the desires file,
overwrites ledger and state). -/
def materializeExpansionFs (now source : List Char) (fs : Fs) :
    Except (List Char) Fs :=
  match fs.desires with
  | none => .error "No such file or directory".toList
  | some c =>
    match materializeStrings now source c with
    | .error m => .error m
    | .ok (lc, sc) => .ok { fs with ledger := some lc, stateJ := some sc }

/-! ### Evolution loop (`evolution.run_evolution_loop` and helpers) -/

/-- `evolution._apply_response`: classify the reply and perform the writes.
`Except.error` carries the `ValueError` message escaping `_write_files` or
the expansion together with the file state at the moment of the raise. -/
def applyResponse (now source : List Char) (base : AbsPath)
    (response current : List Char) (fs : Fs) :
    Except (List Char × Fs) (List Char × List Char × Option (List Char) × Fs) :=
  match parseResponsePayload response with
  | (none, err) =>
    .ok ("invalid".toList, now,
      some (match err with
        | some e =>
          if e = [] then "Response did not contain a desires payload.".toList
          else e
        | none => "Response did not contain a desires payload.".toList), fs)
  | (some payload, _) =>
    let dm := normalizeDesiresText payload.desires
    if pyStrip dm = [] then
      .ok ("invalid".toList, now,
        some "Response JSON must include a non-empty 'desires' string.".toList,
        fs)
    else if pyStrip dm = pyStrip current then
      match writeFilesRun base payload.files fs with
      | (fs', _, some m) => .error (m, fs')
      | (fs', _, none) => .ok ("unchanged".toList, now, none, fs')
    else
      if parseDesires dm = [] then
        .ok ("invalid".toList, now,
          some "Desires must be a numbered list like '1) Title'.".toList, fs)
      else
        match writeFilesRun base payload.files
            { fs with desires := some (pyStrip dm ++ ['\n']) } with
        | (fs₂, _, some m) => .error (m, fs₂)
        | (fs₂, _, none) =>
          match materializeExpansionFs now source fs₂ with
          | .error m => .error (m, fs₂)
          | .ok fs₃ => .ok ("updated".toList, now, none, fs₃)

def rstripSlashes (s : List Char) : List Char :=
  (s.reverse.dropWhile (fun c => c = '/')).reverse

/-- One `json.dump` line of `continuity.record_interaction` (default
separators, insertion order `ts`, `role`, `content`). -/
def jsonDumpFlatRecord (ts role content : List Char) : List Char :=
  "\x7b\"ts\": ".toList ++ jsonQuote ts ++ ", \"role\": ".toList
    ++ jsonQuote role ++ ", \"content\": ".toList ++ jsonQuote content
    ++ "\x7d".toList

/-- `continuity.record_interaction`: normalize blank content to `[empty]`
and append one JSON line to the session log (the roles used by the loops are
always in `ALLOWED_ROLES`, so the validation never raises there). -/
def recordInteraction (fs : Fs) (now role content : List Char) : Fs :=
  let normalized :=
    if content = [] ∨ pyStrip content = [] then "[empty]".toList else content
  let line := jsonDumpFlatRecord now role normalized
  { fs with sessionLog := some ((fs.sessionLog.getD []) ++ line ++ ['\n']) }

def sysPromptText : List Char :=
  ("You are CHORUS running a self-evolution loop. "
    ++ "Rewrite the desires list to guide the next iteration.").toList

def userContentText (current excerpt stateStr : List Char) : List Char :=
  "Current desires markdown:\n".toList
    ++ (if current = [] then "[none]".toList else current)
    ++ "\n\nRecent ledger entries (most recent last):\n".toList
    ++ (if excerpt = [] then "[none]".toList else excerpt)
    ++ "\n\nCurrent state snapshot JSON:\n".toList ++ stateStr
    ++ ("\n\nUpdate the desires markdown to reflect the next "
      ++ "self-evolution steps. Return ONLY valid JSON with keys: "
      ++ "`desires` (string markdown list) and optional `files` (list of "
      ++ "\x7bpath, content\x7d objects). Use paths relative to the desires file "
      ++ "directory. Do not include commentary or code fences.").toList

/-- `evolution._build_messages` (with `_read_tail_lines` and `_read_json`
inlined); a state file holding invalid JSON makes `json.loads` raise, which
is fatal to the loop. -/
def buildMessages (current : List Char) (fs : Fs) :
    Except (List Char) (List (List Char × List Char)) :=
  let excerpt := List.intercalate ['\n'] (lastN 5 (pySplitlines (fs.ledger.getD [])))
  match fs.stateJ with
  | some c =>
    match jsonParseFull c with
    | none => .error "Expecting value: state file is not valid JSON".toList
    | some j =>
      .ok [("system".toList, sysPromptText),
           ("user".toList, userContentText current excerpt
             (if jsonTruthy j then jsonDumpIndent (c.length + 8) j 0
              else "[none]".toList))]
  | none =>
    .ok [("system".toList, sysPromptText),
         ("user".toList, userContentText current excerpt "[none]".toList)]

/-- One element of the returned results list. -/
structure EvoResult where
  iteration : Nat
  timestamp : List Char
  status : List Char
  reason : Option (List Char)
deriving DecidableEq, Repr

/-- The body of the `while True` loop of `run_evolution_loop` for one
iteration (no bootstrap module configured). -/
def evoIteration
    (provider : List (List Char × List Char) → Except (List Char) (List Char))
    (now source : List Char) (base : AbsPath) (iter : Nat) (fs : Fs) :
    Except (List Char × Fs) (EvoResult × Fs) :=
  let current := pyStrip (fs.desires.getD [])
  match buildMessages current fs with
  | .error m => .error (m, fs)
  | .ok msgs =>
    let fs₁ := recordInteraction fs now "user".toList
      (((msgs.getLast?).map Prod.snd).getD [])
    match provider msgs with
    | .error e =>
      .ok (⟨iter, now, "error".toList, none⟩,
        recordInteraction fs₁ now "system".toList
          ("Evolution loop error: ".toList ++ e
            ++ " Raw response: [none]".toList))
    | .ok resp =>
      let fs₂ := recordInteraction fs₁ now "assistant".toList resp
      match applyResponse now source base resp current fs₂ with
      | .error em => .error em
      | .ok (status, ts, reason, fs₃) =>
        let fs₄ :=
          if status = "invalid".toList then
            recordInteraction fs₃ now "system".toList
              ("Evolution loop raw response: ".toList ++ resp)
          else fs₃
        let fs₅ :=
          match reason with
          | some rsn =>
            recordInteraction fs₄ now "system".toList
              ("Evolution loop status=".toList ++ status
                ++ ". Reason: ".toList ++ rsn)
          | none => fs₄
        .ok (⟨iter, ts, status, reason⟩, fs₅)

def startMessage (modelName apiBase : List Char) : List Char :=
  "Self-evolution loop started. Model=".toList ++ modelName
    ++ ", API=".toList ++ rstripSlashes apiBase ++ ".".toList

/-- Iteration loop with the `max_iterations` cap check after each pass; the
fuel is set above the cap by `runEvolutionLoop`, so the cap is what stops
the loop. -/
def evoGo
    (provider : List (List Char × List Char) → Except (List Char) (List Char))
    (now source : List Char) (base : AbsPath) (maxIter : Nat) :
    Nat → Nat → Fs → List EvoResult → Except (List Char × Fs) (List EvoResult × Fs)
  | 0, _, fs, acc => .ok (acc, fs)
  | fuel + 1, iter, fs, acc =>
    match evoIteration provider now source base (iter + 1) fs with
    | .error e => .error e
    | .ok (res, fs') =>
      if iter + 1 ≥ maxIter then .ok (acc ++ [res], fs')
      else evoGo provider now source base maxIter fuel (iter + 1) fs' (acc ++ [res])

/-- `evolution.run_evolution_loop` with a finite `max_iterations` (the
`None` configuration never returns and is outside the embedding). The
interval check is the very first action; `Except.error` carries the file
state at the moment the loop died. -/
def runEvolutionLoop
    (provider : List (List Char × List Char) → Except (List Char) (List Char))
    (interval : ℚ) (maxIter : Nat) (now source modelName apiBase : List Char)
    (base : AbsPath) (fs : Fs) :
    Except (List Char × Fs) (List EvoResult × Fs) :=
  if interval ≤ 0 then .error ("Interval must be positive".toList, fs)
  else
    evoGo provider now source base maxIter (maxIter + 1) 0
      (recordInteraction fs now "system".toList (startMessage modelName apiBase))
      []

theorem extraLookup_upsert_self (k : AbsPath) (v : List Char) :
    ∀ m, (extraLookup (extraUpsert m k v) k).isSome = true := by
  intro m
  induction m with
  | nil => simp [extraUpsert, extraLookup, List.find?]
  | cons kv rest ih =>
    by_cases hk : kv.1 = k
    · simp [extraUpsert, hk, extraLookup, List.find?]
    · simp only [extraUpsert, if_neg hk]
      have hbe : (kv.1 == k) = false := by
        simp [hk]
      simp only [extraLookup, List.find?, hbe]
      exact ih

theorem extraLookup_isSome_upsert_mono (k' : AbsPath) (v' : List Char)
    (k : AbsPath) :
    ∀ m, (extraLookup m k).isSome = true →
      (extraLookup (extraUpsert m k' v') k).isSome = true := by
  intro m
  induction m with
  | nil => intro h; simp [extraLookup, List.find?] at h
  | cons kv rest ih =>
    intro h
    by_cases h1 : (kv.1 == k) = true
    · by_cases h2 : kv.1 = k'
      · have hkk : (k' == k) = true := by
          rw [← h2]; exact h1
        simp [extraUpsert, h2, extraLookup, List.find?, hkk]
      · simp [extraUpsert, if_neg h2, extraLookup, List.find?, h1]
    · have h1' : (kv.1 == k) = false := by
        simp at h1 ⊢
        exact h1
      simp only [extraLookup, List.find?, h1'] at h
      by_cases h2 : kv.1 = k'
      · by_cases hkk : (k' == k) = true
        · simp [extraUpsert, h2, extraLookup, List.find?, hkk]
        · have hkk' : (k' == k) = false := by
            simp at hkk ⊢
            exact hkk
          simp only [extraUpsert, if_pos h2, extraLookup, List.find?, hkk']
          exact h
      · simp only [extraUpsert, if_neg h2, extraLookup, List.find?, h1']
        exact ih h

theorem writeFilesGo_only_extra (base : AbsPath) :
    ∀ (files : List FileEntry) (fs : Fs) (w : List AbsPath),
      ∃ ex, (writeFilesGo base files fs w).1 = { fs with extra := ex } := by
  intro files
  induction files with
  | nil => intro fs w; exact ⟨fs.extra, rfl⟩
  | cons f rest ih =>
    intro fs w
    unfold writeFilesGo
    by_cases hin : insideBase base (resolvePath base f.path) = true
    · rw [if_pos hin]
      obtain ⟨ex, hex⟩ := ih
        { fs with extra := extraUpsert fs.extra (resolvePath base f.path) f.content }
        (w ++ [resolvePath base f.path])
      exact ⟨ex, hex⟩
    · rw [if_neg hin]
      exact ⟨fs.extra, rfl⟩

theorem writeFilesGo_ok (base : AbsPath) :
    ∀ (files : List FileEntry) (fs : Fs) (w : List AbsPath),
      (∀ f ∈ files, insideBase base (resolvePath base f.path) = true) →
      (writeFilesGo base files fs w).2.2 = none := by
  intro files
  induction files with
  | nil => intro fs w _; rfl
  | cons f rest ih =>
    intro fs w hall
    unfold writeFilesGo
    rw [if_pos (hall f (by simp))]
    exact ih _ _ (fun g hg => hall g (by simp [hg]))

theorem writeFilesGo_preserves_presence (base : AbsPath) :
    ∀ (files : List FileEntry) (fs : Fs) (w : List AbsPath) (k : AbsPath),
      (extraLookup fs.extra k).isSome = true →
      (extraLookup ((writeFilesGo base files fs w).1).extra k).isSome = true := by
  intro files
  induction files with
  | nil => intro fs w k h; exact h
  | cons f rest ih =>
    intro fs w k h
    unfold writeFilesGo
    by_cases hin : insideBase base (resolvePath base f.path) = true
    · rw [if_pos hin]
      exact ih _ _ k (extraLookup_isSome_upsert_mono _ _ k fs.extra h)
    · rw [if_neg hin]
      exact h

theorem writeFilesGo_all_present (base : AbsPath) :
    ∀ (files : List FileEntry) (fs : Fs) (w : List AbsPath),
      (∀ f ∈ files, insideBase base (resolvePath base f.path) = true) →
      ∀ f ∈ files,
        (extraLookup ((writeFilesGo base files fs w).1).extra
          (resolvePath base f.path)).isSome = true := by
  intro files
  induction files with
  | nil => intro fs w _ f hf; cases hf
  | cons f rest ih =>
    intro fs w hall g hg
    unfold writeFilesGo
    rw [if_pos (hall f (by simp))]
    rcases List.mem_cons.mp hg with hgf | hgrest
    · subst hgf
      exact writeFilesGo_preserves_presence base rest _ _ _
        (extraLookup_upsert_self _ _ fs.extra)
    · exact ih _ _ (fun q hq => hall q (by simp [hq])) g hgrest

theorem writeFilesGo_written_inside (base : AbsPath) :
    ∀ (files : List FileEntry) (fs : Fs) (w : List AbsPath),
      (∀ q ∈ w, insideBase base q = true) →
      ∀ q ∈ (writeFilesGo base files fs w).2.1, insideBase base q = true := by
  intro files
  induction files with
  | nil => intro fs w hw q hq; exact hw q hq
  | cons f rest ih =>
    intro fs w hw q hq
    unfold writeFilesGo at hq
    by_cases hin : insideBase base (resolvePath base f.path) = true
    · rw [if_pos hin] at hq
      refine ih _ _ (fun x hx => ?_) q hq
      rcases List.mem_append.mp hx with h1 | h1
      · exact hw x h1
      · rw [List.mem_singleton.mp h1]
        exact hin
    · rw [if_neg hin] at hq
      exact hw q hq

theorem writeFilesGo_err_of_outside (base : AbsPath) :
    ∀ (files : List FileEntry) (fs : Fs) (w : List AbsPath),
      (∃ f ∈ files, insideBase base (resolvePath base f.path) = false) →
      ((writeFilesGo base files fs w).2.2).isSome = true := by
  intro files
  induction files with
  | nil => intro fs w h; obtain ⟨f, hf, _⟩ := h; cases hf
  | cons f rest ih =>
    intro fs w h
    unfold writeFilesGo
    by_cases hin : insideBase base (resolvePath base f.path) = true
    · rw [if_pos hin]
      obtain ⟨g, hg, hgout⟩ := h
      rcases List.mem_cons.mp hg with hgf | hgrest
      · subst hgf
        rw [hin] at hgout
        cases hgout
      · exact ih _ _ ⟨g, hgrest, hgout⟩
    · rw [if_neg hin]
      rfl

/-- C4: when the resolved payload's normalized desires text equals the
current desires after trimming, `_apply_response` returns `unchanged`, the
desires / ledger / state (and session log) components of the file state are
exactly what they were — ledger and state are not rematerialized — while
every supplied `files` entry is still written into the extra-file map. -/
theorem C4_unchanged_keeps_files_writes (now source : List Char)
    (base : AbsPath) (r current : List Char) (p : EvolutionPayload) (fs : Fs)
    (h1 : parseResponsePayload r = (some p, none))
    (h2 : pyStrip (normalizeDesiresText p.desires) ≠ [])
    (h3 : pyStrip (normalizeDesiresText p.desires) = pyStrip current)
    (h4 : ∀ f ∈ p.files, insideBase base (resolvePath base f.path) = true) :
    ∃ ex,
      applyResponse now source base r current fs
          = .ok ("unchanged".toList, now, none, { fs with extra := ex })
        ∧ ∀ f ∈ p.files,
            (extraLookup ex (resolvePath base f.path)).isSome = true := by
  have hok : (writeFilesRun base p.files fs).2.2 = none :=
    writeFilesGo_ok base p.files fs [] h4
  obtain ⟨ex, hex⟩ := writeFilesGo_only_extra base p.files fs []
  have hpres := writeFilesGo_all_present base p.files fs [] h4
  unfold writeFilesRun at hok
  rcases hwf : writeFilesGo base p.files fs [] with ⟨fs', w, errOpt⟩
  rw [hwf] at hok hex hpres
  dsimp only at hok hex hpres
  subst hok
  rw [hex] at hpres
  dsimp only at hpres
  refine ⟨ex, ?_, ?_⟩
  · unfold applyResponse
    rw [h1]
    dsimp only
    rw [if_neg h2, if_pos h3]
    unfold writeFilesRun
    rw [hwf]
    dsimp only
    rw [hex]
  · intro f hf
    exact hpres f hf

/-- C4 witness: the reply repeating the current desires together with a
`notes.txt` file entry yields `unchanged` and writes the file. -/
theorem C4_witness :
    ∃ ex,
      applyResponse "T".toList "test".toList ["tmp".toList]
          ("\x7b\"desires\": \"1) Start\\nSeed.\\n\", \"files\": "
            ++ "[\x7b\"path\": \"notes.txt\", \"content\": \"updated\"\x7d]\x7d").toList
          "1) Start\nSeed.".toList
          ⟨some "1) Start\nSeed.\n".toList, none, none, none, []⟩
        = .ok ("unchanged".toList, "T".toList, none,
            { (⟨some "1) Start\nSeed.\n".toList, none, none, none, []⟩ : Fs) with
              extra := ex })
      ∧ ∀ f ∈ (⟨"1) Start\nSeed.\n".toList,
            [⟨"notes.txt".toList, "updated".toList⟩]⟩ : EvolutionPayload).files,
          (extraLookup ex (resolvePath ["tmp".toList] f.path)).isSome = true :=
  C4_unchanged_keeps_files_writes "T".toList "test".toList ["tmp".toList]
    ("\x7b\"desires\": \"1) Start\\nSeed.\\n\", \"files\": "
      ++ "[\x7b\"path\": \"notes.txt\", \"content\": \"updated\"\x7d]\x7d").toList
    "1) Start\nSeed.".toList
    ⟨"1) Start\nSeed.\n".toList, [⟨"notes.txt".toList, "updated".toList⟩]⟩
    ⟨some "1) Start\nSeed.\n".toList, none, none, none, []⟩
    (by decide) (by decide) (by decide) (by decide)

/-- C5: a `files` entry resolving outside the desires directory makes
`_write_files` raise before writing to that destination — every performed
write stays inside the base directory, nothing is clamped — and an error
escaping `_apply_response` terminates `run_evolution_loop` as a fatal
failure instead of becoming a per-iteration status. -/
theorem C5_traversal_fatal (base : AbsPath) (files : List FileEntry) (fs : Fs)
    (h : ∃ f ∈ files, insideBase base (resolvePath base f.path) = false) :
    ((writeFilesRun base files fs).2.2).isSome = true
      ∧ (∀ q ∈ (writeFilesRun base files fs).2.1, insideBase base q = true)
      ∧ ∀ provider interval maxIter now source modelName apiBase
          (fs₀ : Fs) m (efs : Fs),
          0 < interval →
          evoIteration provider now source base 1
              (recordInteraction fs₀ now "system".toList
                (startMessage modelName apiBase))
            = .error (m, efs) →
          runEvolutionLoop provider interval maxIter now source modelName
              apiBase base fs₀
            = .error (m, efs) := by
  refine ⟨writeFilesGo_err_of_outside base files fs [] h,
    writeFilesGo_written_inside base files fs [] (by intro q hq; cases hq),
    ?_⟩
  intro provider interval maxIter now source modelName apiBase fs₀ m efs
    hpos herr
  unfold runEvolutionLoop
  rw [if_neg (not_le.mpr hpos)]
  show evoGo provider now source base maxIter (maxIter + 1) 0 _ [] = _
  rw [evoGo]
  rw [herr]

/-- C5 witness: the `../outside.txt` entry errors, writes stay inside, and a
concrete loop run dies fatally on it. -/
theorem C5_witness :
    ((writeFilesRun ["tmp".toList]
        [⟨"../outside.txt".toList, "boom".toList⟩]
        ⟨some "1) Start\nSeed.\n".toList, none, none, none, []⟩).2.2).isSome = true
      ∧ (∀ q ∈ (writeFilesRun ["tmp".toList]
          [⟨"../outside.txt".toList, "boom".toList⟩]
          ⟨some "1) Start\nSeed.\n".toList, none, none, none, []⟩).2.1,
          insideBase ["tmp".toList] q = true)
      ∧ ∀ provider interval maxIter now source modelName apiBase
          (fs₀ : Fs) m (efs : Fs),
          0 < interval →
          evoIteration provider now source ["tmp".toList] 1
              (recordInteraction fs₀ now "system".toList
                (startMessage modelName apiBase))
            = .error (m, efs) →
          runEvolutionLoop provider interval maxIter now source modelName
              apiBase ["tmp".toList] fs₀
            = .error (m, efs) :=
  C5_traversal_fatal ["tmp".toList]
    [⟨"../outside.txt".toList, "boom".toList⟩]
    ⟨some "1) Start\nSeed.\n".toList, none, none, none, []⟩
    (by decide)

/-- C10: `run_evolution_loop` rejects a non-positive interval with a
`ValueError` before any iteration: the returned error carries the input
file state untouched — no interaction-log write, no iteration result, no
completion-provider call has happened. -/
theorem C10_evolution_interval_guard
    (provider : List (List Char × List Char) → Except (List Char) (List Char))
    (interval : ℚ) (maxIter : Nat)
    (now source modelName apiBase : List Char) (base : AbsPath) (fs : Fs)
    (h : interval ≤ 0) :
    runEvolutionLoop provider interval maxIter now source modelName apiBase
        base fs
      = .error ("Interval must be positive".toList, fs) := by
  unfold runEvolutionLoop
  rw [if_pos h]

/-- C10 witness at `interval = 0`. -/
theorem C10_witness :
    runEvolutionLoop (fun _ => Except.error []) (0 : ℚ) 1 "T".toList
        "test".toList "m".toList "a".toList ["tmp".toList]
        ⟨none, none, none, none, []⟩
      = .error ("Interval must be positive".toList,
          ⟨none, none, none, none, []⟩) :=
  C10_evolution_interval_guard (fun _ => Except.error []) 0 1 "T".toList
    "test".toList "m".toList "a".toList ["tmp".toList]
    ⟨none, none, none, none, []⟩ (by norm_num)

/-- C2: evaluation of `_apply_response` at the disputed input. With current
desires `1) Start\nSeed.` and the reply `{"desires": "Not a numbered
list."}`, `_normalize_desires_text` retitles the text to `1) Not a numbered
list.`, which parses as one desire, so the iteration is classified
`updated` — not `invalid` with the "Desires must be a numbered list"
reason — and the desires file is rewritten. This contradicts both the spec
sentence and `test_evolution_loop_rejects_invalid_response`. -/
theorem C2_not_numbered_reply_is_updated :
    (applyResponse "T".toList "test".toList ["tmp".toList]
        "\x7b\"desires\": \"Not a numbered list.\"\x7d".toList
        "1) Start\nSeed.".toList
        ⟨some "1) Start\nSeed.\n".toList, none, none, none, []⟩).toOption.map
        (fun res => (res.1, res.2.2.1, res.2.2.2.desires))
      = some ("updated".toList, none,
          some "1) Not a numbered list.\n".toList)
    ∧ ("1) Not a numbered list.\n".toList : List Char)
      ≠ "1) Start\nSeed.\n".toList := by
  constructor
  · decide
  · decide

/-! ### Daemon loop (`src/chorus/daemon.py`) -/

theorem getLast?_append_right (l l' : List Char) (h : l' ≠ []) :
    (l ++ l').getLast? = l'.getLast? := by
  induction l with
  | nil => rfl
  | cons c cs ih =>
    rw [List.cons_append]
    cases hcs : cs ++ l' with
    | nil =>
      rcases List.append_eq_nil.mp hcs with ⟨-, h2⟩
      exact absurd h2 h
    | cons y ys =>
      rw [List.getLast?_cons_cons, ← hcs, ih]

/-- If `dropWhile` leaves a cons, the predicate fails on its head. -/
theorem dropWhile_head_false (p : Char → Bool) :
    ∀ (l : List Char) (y : Char) (ys : List Char),
      l.dropWhile p = y :: ys → p y = false := by
  intro l
  induction l with
  | nil => intro y ys h; cases h
  | cons c cs ih =>
    intro y ys h
    rw [List.dropWhile_cons] at h
    by_cases hp : p c = true
    · rw [if_pos hp] at h
      exact ih y ys h
    · rw [if_neg hp] at h
      have hy : y = c := (List.cons.injEq _ _ _ _ ▸ h.symm).1
      rw [hy]
      exact eq_false_of_ne_true hp

/-- The tail after `dropWhile` keeps the last element of a list. -/
theorem dropWhile_getLast? (p : Char → Bool) (l : List Char)
    (h : l.dropWhile p ≠ []) : (l.dropWhile p).getLast? = l.getLast? := by
  obtain ⟨l₁, hl⟩ := List.dropWhile_suffix (l := l) p
  conv_rhs => rw [← hl]
  exact (getLast?_append_right l₁ _ h).symm

/-- A non-empty list whose last element is not whitespace strips to a
non-empty list. -/
theorem pyStrip_ne_nil_of_last (l : List Char) (d : Char)
    (hlast : l.getLast? = some d) (hd : isWS d = false) : pyStrip l ≠ [] := by
  have hl : l ≠ [] := by
    intro h
    rw [h] at hlast
    cases hlast
  have hdw : pyLStrip l ≠ [] := by
    intro hnil
    have hall := List.dropWhile_eq_nil_iff.mp hnil
    have hmem : d ∈ l := by
      have hgl := List.getLast?_eq_getLast l hl
      rw [hgl] at hlast
      rw [← Option.some.inj hlast]
      exact List.getLast_mem hl
    have := hall d hmem
    rw [hd] at this
    cases this
  have hlast2 : (pyLStrip l).getLast? = some d := by
    unfold pyLStrip at hdw ⊢
    rw [dropWhile_getLast? isWS l hdw]
    exact hlast
  unfold pyStrip
  obtain ⟨t, ht⟩ : ∃ t, pyLStrip l = t ++ [d] := by
    refine ⟨(pyLStrip l).dropLast, ?_⟩
    exact (List.dropLast_append_getLast? d hlast2).symm
  rw [ht, pyRStrip_append_singleton _ _ hd]
  simp

/-- The output of `pyStrip` never ends in whitespace. -/
theorem pyStrip_last_not_ws (l : List Char) (d : Char)
    (h : (pyStrip l).getLast? = some d) : isWS d = false := by
  unfold pyStrip pyRStrip at h
  cases hx : (pyLStrip l).reverse.dropWhile isWS with
  | nil => rw [hx] at h; cases h
  | cons y ys =>
    rw [hx] at h
    have hy : isWS y = false :=
      dropWhile_head_false isWS ((pyLStrip l).reverse) y ys hx
    have hrev : (y :: ys).reverse.getLast? = some y := by
      rw [List.getLast?_reverse]
      rfl
    rw [hrev] at h
    rw [← Option.some.inj h]
    exact hy

/-- A successful header match on stripped text yields a non-empty title. -/
theorem matchHeader_title_ne_nil (line : List Char) (n : Nat)
    (rt : List Char) (h : matchHeader (pyStrip line) = some (n, rt)) :
    pyStrip rt ≠ [] := by
  set s := pyStrip line with hs
  unfold matchHeader at h
  by_cases hdig : s.takeWhile (fun c => c.isDigit) = []
  · rw [if_pos hdig] at h; cases h
  · rw [if_neg hdig] at h
    cases hdrop : s.drop (s.takeWhile (fun c => c.isDigit)).length with
    | nil => rw [hdrop] at h; cases h
    | cons c rest₂ =>
      rw [hdrop] at h
      dsimp only at h
      by_cases hc : c = ')' ∨ c = '.'
      · rw [if_pos hc] at h
        by_cases hws : rest₂.takeWhile isWS = []
        · rw [if_pos hws] at h; cases h
        · rw [if_neg hws] at h
          have hrt : rt = rest₂.drop (rest₂.takeWhile isWS).length := by
            have hinj := Option.some.inj h
            exact (congrArg Prod.snd hinj).symm
          have hsne : s ≠ [] := by
            intro hnil
            rw [hnil] at hdig
            exact hdig rfl
          obtain ⟨dlast, hdlast⟩ : ∃ d, s.getLast? = some d := by
            cases hgl : s.getLast? with
            | none => exact absurd (List.getLast?_eq_none_iff.mp hgl) hsne
            | some d => exact ⟨d, rfl⟩
          have hdws : isWS dlast = false := pyStrip_last_not_ws line dlast
            (by rw [← hs]; exact hdlast)
          have hrest₂ : rest₂ ≠ [] := by
            intro hnil
            rw [hnil] at hws
            exact hws rfl
          have hlast₂ : rest₂.getLast? = some dlast := by
            have h1 : (c :: rest₂).getLast? = s.getLast? := by
              conv_rhs => rw [← List.take_append_drop
                (s.takeWhile (fun c => c.isDigit)).length s, hdrop]
              exact (getLast?_append_right _ _ (by simp)).symm
            rw [hdlast] at h1
            rw [← h1]
            cases hr : rest₂ with
            | nil => exact absurd hr hrest₂
            | cons y ys => rw [List.getLast?_cons_cons]
          have hrtne : rt ≠ [] := by
            intro hnil
            rw [hrt] at hnil
            have hlen : rest₂.length ≤ (rest₂.takeWhile isWS).length :=
              List.drop_eq_nil_iff.mp hnil
            have hdwnil : rest₂.dropWhile isWS = [] := by
              have hsum := congrArg List.length
                (List.takeWhile_append_dropWhile (p := isWS) (l := rest₂))
              rw [List.length_append] at hsum
              have : (rest₂.dropWhile isWS).length = 0 := by omega
              exact List.length_eq_zero.mp this
            have hall := List.dropWhile_eq_nil_iff.mp hdwnil
            have hmem : dlast ∈ rest₂ := by
              have hgl := List.getLast?_eq_getLast rest₂ hrest₂
              rw [hgl] at hlast₂
              rw [← Option.some.inj hlast₂]
              exact List.getLast_mem hrest₂
            have := hall dlast hmem
            rw [hdws] at this
            cases this
          have hlastrt : rt.getLast? = some dlast := by
            rw [hrt]
            rw [hrt] at hrtne
            have h2 : (rest₂.take (rest₂.takeWhile isWS).length
                ++ rest₂.drop (rest₂.takeWhile isWS).length).getLast?
                = (rest₂.drop (rest₂.takeWhile isWS).length).getLast? :=
              getLast?_append_right _ _ hrtne
            rw [List.take_append_drop] at h2
            rw [← h2, hlast₂]
          exact pyStrip_ne_nil_of_last rt dlast hlastrt hdws
      · rw [if_neg hc] at h; cases h

/-- Every desire produced by `parse_desires` carries a non-empty title. -/
theorem parseDesiresGo_titles :
    ∀ (lines : List (List Char)) (cur : Option CurAcc) (acc : List Desire),
      (∀ d ∈ acc, d.title ≠ []) →
      (∀ c, cur = some c → c.title ≠ []) →
      ∀ d ∈ parseDesiresGo lines cur acc, d.title ≠ [] := by
  intro lines
  induction lines with
  | nil =>
    intro cur acc hacc hcur d hd
    unfold parseDesiresGo at hd
    rcases List.mem_append.mp hd with hmem | hmem
    · exact hacc d hmem
    · cases cur with
      | none => cases hmem
      | some c =>
        rw [List.mem_singleton.mp hmem]
        exact hcur c rfl
  | cons line rest ih =>
    intro cur acc hacc hcur d hd
    unfold parseDesiresGo at hd
    by_cases hblank : pyStrip line = []
    · rw [if_pos hblank] at hd
      cases cur with
      | some c =>
        dsimp only at hd
        by_cases hbl : c.bodyLines ≠ []
        · rw [if_pos hbl] at hd
          exact ih _ _ hacc
            (fun c' hc' => by
              rw [← Option.some.inj hc']
              exact hcur c rfl) d hd
        · rw [if_neg hbl] at hd
          exact ih _ _ hacc hcur d hd
      | none =>
        dsimp only at hd
        exact ih _ _ hacc hcur d hd
    · rw [if_neg hblank] at hd
      cases hmh : matchHeader (pyStrip line) with
      | some nr =>
        rw [hmh] at hd
        dsimp only at hd
        refine ih _ _ ?_ ?_ d hd
        · intro d' hd'
          rcases List.mem_append.mp hd' with hmem | hmem
          · exact hacc d' hmem
          · cases cur with
            | none => cases hmem
            | some c =>
              rw [List.mem_singleton.mp hmem]
              exact hcur c rfl
        · intro c' hc'
          rw [← Option.some.inj hc']
          exact matchHeader_title_ne_nil line nr.1 nr.2 (by rw [hmh])
      | none =>
        rw [hmh] at hd
        dsimp only at hd
        cases cur with
        | some c =>
          dsimp only at hd
          exact ih _ _ hacc
            (fun c' hc' => by
              rw [← Option.some.inj hc']
              exact hcur c rfl) d hd
        | none =>
          dsimp only at hd
          exact ih _ _ hacc hcur d hd

theorem parseDesires_title_ne_nil (text : List Char) :
    ∀ d ∈ parseDesires text, d.title ≠ [] :=
  parseDesiresGo_titles (pySplitlines text) none []
    (fun _ hd => absurd hd (List.not_mem_nil _))
    (fun _ hc => by cases hc)

theorem buildExpansionEntries_ok (now source : List Char)
    (hn : now ≠ []) (hs : source ≠ []) :
    ∀ (ds : List Desire), (∀ d ∈ ds, d.title ≠ []) →
      ∃ es, buildExpansionEntries now source ds = .ok es := by
  intro ds
  induction ds with
  | nil => intro _; exact ⟨[], rfl⟩
  | cons d rest ih =>
    intro hall
    have hv : validateMsg (ledgerEntryOfDesire now source d) = none := by
      unfold validateMsg ledgerEntryOfDesire
      have ht : d.title ≠ [] := hall d (by simp)
      rw [if_neg (by simp [ALLOWED_ENTRY_TYPES])]
      rw [if_neg (by simpa using hn)]
      rw [if_neg (by simpa using ht)]
      rw [if_neg ?_]
      · rw [if_neg (by simpa using hs)]
      · by_cases hb : d.body = []
        · simp [hb]
        · simp [hb]
    obtain ⟨es, hes⟩ := ih (fun q hq => hall q (by simp [hq]))
    refine ⟨ledgerEntryOfDesire now source d :: es, ?_⟩
    unfold buildExpansionEntries
    rw [hv, hes]

theorem materializeStrings_ok (now source : List Char)
    (hn : now ≠ []) (hs : source ≠ []) (content : List Char) :
    ∃ lc sc, materializeStrings now source content = .ok (lc, sc) := by
  obtain ⟨es, hes⟩ := buildExpansionEntries_ok now source hn hs
    (parseDesires content) (parseDesires_title_ne_nil content)
  unfold materializeStrings
  rw [hes]
  exact ⟨_, _, rfl⟩

/-- `daemon._read_signature` over a digest function abstracting
`hashlib.sha256(...).hexdigest()`: `f"{len(payload)}:{digest}"`. -/
def readSignature (digest : List Char → List Char) (content : List Char) :
    List Char :=
  natToChars content.length ++ (':' :: digest content)

/-- Expansion leg of the daemon: `materialize_expansion` overwrites the
ledger and state files from the current desires content. -/
def expandFs (now source : List Char) (content : List Char) (fs : Fs) :
    Except (List Char) Fs :=
  match materializeStrings now source content with
  | .error m => .error m
  | .ok (lc, sc) => .ok { fs with ledger := some lc, stateJ := some sc }

/-- `continuity.bootstrap_continuity`: materialize, then seed the
interaction log with the bootstrap system record. -/
def bootstrapFs (now source : List Char) (content : List Char) (fs : Fs) :
    Except (List Char) Fs :=
  match materializeStrings now source content with
  | .error m => .error m
  | .ok (lc, sc) =>
    .ok (recordInteraction { fs with ledger := some lc, stateJ := some sc }
      now "system".toList
      ("Bootstrap continuity: ".toList
        ++ natToChars (parseDesires content).length
        ++ " desires materialized.".toList))

/-- `daemon.run_daemon` body: each list element is the desires-file content
observed by `_read_signature` at one iteration (exogenous edits happen
between iterations); the returned list carries each iteration's status and
the file state after it. -/
def runDaemonAux (digest : List Char → List Char) (now source : List Char) :
    List (List Char) → Option (List Char) → Fs →
    Except (List Char) (List (List Char × Fs))
  | [], _, _ => .ok []
  | c :: cs, last, fs =>
    if some (readSignature digest c) ≠ last then
      match last with
      | none =>
        match bootstrapFs now source c fs with
        | .error m => .error m
        | .ok fs' =>
          match runDaemonAux digest now source cs
              (some (readSignature digest c)) fs' with
          | .error m => .error m
          | .ok out => .ok (("bootstrapped".toList, fs') :: out)
      | some _ =>
        match expandFs now source c fs with
        | .error m => .error m
        | .ok fs' =>
          match runDaemonAux digest now source cs
              (some (readSignature digest c)) fs' with
          | .error m => .error m
          | .ok out => .ok (("expanded".toList, fs') :: out)
    else
      match runDaemonAux digest now source cs last fs with
      | .error m => .error m
      | .ok out => .ok (("unchanged".toList, fs) :: out)

def runDaemon (digest : List Char → List Char) (now source : List Char)
    (contents : List (List Char)) (fs : Fs) :
    Except (List Char) (List (List Char × Fs)) :=
  runDaemonAux digest now source contents none fs

/-- The spec's status sequence: first observation bootstraps; afterwards a
signature equal to the last observed one is `unchanged`, a different one is
`expanded`. -/
def daemonSpecStatuses (digest : List Char → List Char) :
    Option (List Char) → List (List Char) → List (List Char)
  | _, [] => []
  | none, c :: cs =>
    "bootstrapped".toList
      :: daemonSpecStatuses digest (some (readSignature digest c)) cs
  | some s, c :: cs =>
    (if readSignature digest c = s then "unchanged".toList
     else "expanded".toList)
      :: daemonSpecStatuses digest (some (readSignature digest c)) cs

theorem runDaemonAux_spec (digest : List Char → List Char)
    (now source : List Char) (hn : now ≠ []) (hs : source ≠ []) :
    ∀ (contents : List (List Char)) (last : Option (List Char)) (fs : Fs),
      ∃ out, runDaemonAux digest now source contents last fs = .ok out
        ∧ out.map Prod.fst = daemonSpecStatuses digest last contents
        ∧ (∀ r, out.head? = some r → r.1 = "unchanged".toList → r.2 = fs)
        ∧ (last ≠ none → ∀ r, out.head? = some r →
            r.2.sessionLog = fs.sessionLog)
        ∧ (∀ i r' r, out[i]? = some r' → out[i + 1]? = some r →
            r.1 = "unchanged".toList → r.2 = r'.2)
        ∧ (∀ i r' r, out[i]? = some r' → out[i + 1]? = some r →
            r.2.sessionLog = r'.2.sessionLog) := by
  intro contents
  induction contents with
  | nil =>
    intro last fs
    refine ⟨[], rfl, by cases last <;> rfl, ?_, ?_, ?_, ?_⟩
    · intro r hr; cases hr
    · intro _ r hr; cases hr
    · intro i r' r h1 h2; cases h1
    · intro i r' r h1 h2; cases h1
  | cons c cs ih =>
    intro last fs
    by_cases hif : some (readSignature digest c) ≠ last
    · cases last with
      | none =>
        obtain ⟨lc, sc, hmat⟩ := materializeStrings_ok now source hn hs c
        set fsB := recordInteraction
          { fs with ledger := some lc, stateJ := some sc } now "system".toList
          ("Bootstrap continuity: ".toList
            ++ natToChars (parseDesires c).length
            ++ " desires materialized.".toList) with hfsB
        have hb : bootstrapFs now source c fs = .ok fsB := by
          unfold bootstrapFs
          rw [hmat]
        obtain ⟨out', hrun, hstat, hH1, hH2, hP3, hP4⟩ :=
          ih (some (readSignature digest c)) fsB
        refine ⟨("bootstrapped".toList, fsB) :: out', ?_, ?_, ?_, ?_, ?_, ?_⟩
        · unfold runDaemonAux
          rw [if_pos hif]
          dsimp only
          rw [hb]
          dsimp only
          rw [hrun]
        · show _ :: _ = daemonSpecStatuses digest none (c :: cs)
          unfold daemonSpecStatuses
          rw [← hstat]
        · intro r hr hst
          rw [List.head?_cons] at hr
          rw [← Option.some.inj hr] at hst
          have hbad : "bootstrapped".toList = "unchanged".toList := hst
          exact absurd hbad (by decide)
        · intro hln
          exact absurd rfl hln
        · intro i r' r h1 h2 hst
          cases i with
          | zero =>
            rw [List.getElem?_cons_zero] at h1
            rw [List.getElem?_cons_succ] at h2
            have := hH1 r (by rw [List.head?_eq_getElem?]; exact h2) hst
            rw [this, ← Option.some.inj h1]
          | succ j =>
            rw [List.getElem?_cons_succ] at h1 h2
            exact hP3 j r' r h1 h2 hst
        · intro i r' r h1 h2
          cases i with
          | zero =>
            rw [List.getElem?_cons_zero] at h1
            rw [List.getElem?_cons_succ] at h2
            have := hH2 (by simp) r (by rw [List.head?_eq_getElem?]; exact h2)
            rw [this, ← Option.some.inj h1]
          | succ j =>
            rw [List.getElem?_cons_succ] at h1 h2
            exact hP4 j r' r h1 h2
      | some s =>
        obtain ⟨lc, sc, hmat⟩ := materializeStrings_ok now source hn hs c
        set fsE : Fs := { fs with ledger := some lc, stateJ := some sc }
          with hfsE
        have he : expandFs now source c fs = .ok fsE := by
          unfold expandFs
          rw [hmat]
        obtain ⟨out', hrun, hstat, hH1, hH2, hP3, hP4⟩ :=
          ih (some (readSignature digest c)) fsE
        have hsig : readSignature digest c ≠ s := by
          intro hcontra
          exact hif (by rw [hcontra])
        refine ⟨("expanded".toList, fsE) :: out', ?_, ?_, ?_, ?_, ?_, ?_⟩
        · unfold runDaemonAux
          rw [if_pos hif]
          dsimp only
          rw [he]
          dsimp only
          rw [hrun]
        · show _ :: _ = daemonSpecStatuses digest (some s) (c :: cs)
          unfold daemonSpecStatuses
          rw [if_neg hsig, ← hstat]
        · intro r hr hst
          rw [List.head?_cons] at hr
          rw [← Option.some.inj hr] at hst
          have hbad : "expanded".toList = "unchanged".toList := hst
          exact absurd hbad (by decide)
        · intro _ r hr
          rw [List.head?_cons] at hr
          rw [← Option.some.inj hr]
        · intro i r' r h1 h2 hst
          cases i with
          | zero =>
            rw [List.getElem?_cons_zero] at h1
            rw [List.getElem?_cons_succ] at h2
            have := hH1 r (by rw [List.head?_eq_getElem?]; exact h2) hst
            rw [this, ← Option.some.inj h1]
          | succ j =>
            rw [List.getElem?_cons_succ] at h1 h2
            exact hP3 j r' r h1 h2 hst
        · intro i r' r h1 h2
          cases i with
          | zero =>
            rw [List.getElem?_cons_zero] at h1
            rw [List.getElem?_cons_succ] at h2
            have := hH2 (by simp) r (by rw [List.head?_eq_getElem?]; exact h2)
            rw [this, ← Option.some.inj h1]
          | succ j =>
            rw [List.getElem?_cons_succ] at h1 h2
            exact hP4 j r' r h1 h2
    · have hlast : last = some (readSignature digest c) :=
        (not_ne_iff.mp hif).symm
      subst hlast
      obtain ⟨out', hrun, hstat, hH1, hH2, hP3, hP4⟩ :=
        ih (some (readSignature digest c)) fs
      refine ⟨("unchanged".toList, fs) :: out', ?_, ?_, ?_, ?_, ?_, ?_⟩
      · unfold runDaemonAux
        rw [if_neg hif]
        rw [hrun]
      · show _ :: _ = daemonSpecStatuses digest (some (readSignature digest c))
          (c :: cs)
        unfold daemonSpecStatuses
        rw [if_pos rfl, ← hstat]
      · intro r hr _
        rw [List.head?_cons] at hr
        rw [← Option.some.inj hr]
      · intro _ r hr
        rw [List.head?_cons] at hr
        rw [← Option.some.inj hr]
      · intro i r' r h1 h2 hst
        cases i with
        | zero =>
          rw [List.getElem?_cons_zero] at h1
          rw [List.getElem?_cons_succ] at h2
          have := hH1 r (by rw [List.head?_eq_getElem?]; exact h2) hst
          rw [this, ← Option.some.inj h1]
        | succ j =>
          rw [List.getElem?_cons_succ] at h1 h2
          exact hP3 j r' r h1 h2 hst
      · intro i r' r h1 h2
        cases i with
        | zero =>
          rw [List.getElem?_cons_zero] at h1
          rw [List.getElem?_cons_succ] at h2
          have := hH2 (by simp) r (by rw [List.head?_eq_getElem?]; exact h2)
          rw [this, ← Option.some.inj h1]
        | succ j =>
          rw [List.getElem?_cons_succ] at h1 h2
          exact hP4 j r' r h1 h2

/-- C8: over any run of `run_daemon` (with a non-empty source label and
timestamp; the digest argument abstracts `hashlib.sha256(...).hexdigest()`),
the first iteration is `bootstrapped`, and each later iteration is
`unchanged` exactly when the desires file's signature (length plus digest)
equals the previously observed one and `expanded` otherwise; an `unchanged`
iteration performs no file writes (the file state is identical to the
previous iteration's), and no iteration after the first writes the
interaction log. -/
theorem C8_daemon_statuses (digest : List Char → List Char)
    (now source : List Char) (hn : now ≠ []) (hs : source ≠ [])
    (contents : List (List Char)) (fs : Fs) :
    ∃ out, runDaemon digest now source contents fs = .ok out
      ∧ out.map Prod.fst = daemonSpecStatuses digest none contents
      ∧ (∀ c cs, contents = c :: cs →
          out.head?.map Prod.fst = some "bootstrapped".toList)
      ∧ (∀ i r' r, out[i]? = some r' → out[i + 1]? = some r →
          r.1 = "unchanged".toList → r.2 = r'.2)
      ∧ (∀ i r' r, out[i]? = some r' → out[i + 1]? = some r →
          r.2.sessionLog = r'.2.sessionLog) := by
  obtain ⟨out, hrun, hstat, _, _, hP3, hP4⟩ :=
    runDaemonAux_spec digest now source hn hs contents none fs
  refine ⟨out, hrun, hstat, ?_, hP3, hP4⟩
  intro c cs hcc
  have h1 : out.head?.map Prod.fst = (out.map Prod.fst).head? :=
    (List.head?_map _ _).symm
  rw [h1, hstat, hcc]
  rfl

/-- C8 witness: three observations (repeat, then a change) under the
identity digest. -/
theorem C8_witness :
    ∃ out, runDaemon (fun l => l) "T".toList "test".toList
        ["1) A\nx.\n".toList, "1) A\nx.\n".toList, "1) B\ny.\n".toList]
        ⟨none, none, none, none, []⟩
      = .ok out
      ∧ out.map Prod.fst = daemonSpecStatuses (fun l => l) none
          ["1) A\nx.\n".toList, "1) A\nx.\n".toList, "1) B\ny.\n".toList]
      ∧ (∀ c cs,
          (["1) A\nx.\n".toList, "1) A\nx.\n".toList, "1) B\ny.\n".toList]
            : List (List Char)) = c :: cs →
          out.head?.map Prod.fst = some "bootstrapped".toList)
      ∧ (∀ i r' r, out[i]? = some r' → out[i + 1]? = some r →
          r.1 = "unchanged".toList → r.2 = r'.2)
      ∧ (∀ i r' r, out[i]? = some r' → out[i + 1]? = some r →
          r.2.sessionLog = r'.2.sessionLog) :=
  C8_daemon_statuses (fun l => l) "T".toList "test".toList (by decide)
    (by decide)
    ["1) A\nx.\n".toList, "1) A\nx.\n".toList, "1) B\ny.\n".toList]
    ⟨none, none, none, none, []⟩
